import Mathlib

/-!
Verification of the refl-index core (indexer / sidecar index / reader) against
its natural-language specification.

The development is a shallow embedding of the Python sources:
  - refl_index/dtypes.py   : the DIALS type catalog
  - refl_index/indexer.py  : ReflIndex.build / save / load
  - refl_index/reader.py   : ReflReader.read_column / read_column_raw / read_columns

Modelling conventions:
  - A file is a `List Nat` of byte values; the container file is read through a
    `ByteStream` (remaining bytes plus the absolute position, mirroring the
    msgpack `Unpacker` stream with its `tell()`).
  - Python `str` values that originate from the container are kept as their
    UTF-8 byte sequences (`List Nat`); the code's `bytes.decode("utf-8")`
    normalisation is the identity on this representation.  All string
    constants involved (keys, magic, type tags) are ASCII.
  - Python `int` is `Int`; sizes, byte offsets and lengths are `Nat`.
  - Exceptions are `Except Err`; the constructors of `Err` record which error
    of the spec's taxonomy a raised Python exception corresponds to.
  - The generic msgpack decoding performed by the `msgpack.Unpacker` library
    calls (`unpack`, `skip`, `read_array_header`, `read_map_header`,
    `read_bytes`, `tell`) is embedded directly from the msgpack format:
    it is an external library at the boundary of the specified core.
-/

namespace ReflIdx

/-- UTF-8 bytes of an ASCII string (all string constants used here are ASCII,
for which UTF-8 bytes coincide with code points). -/
def s2b (s : String) : List Nat := s.data.map Char.toNat

/-- Error taxonomy.  Each constructor notes the Python exception it models and
the spec's error kind. -/
inductive Err where
  /-- msgpack `OutOfData` / struct.error / IndexError on a short low-level
  read: structural error (spec: FormatError). -/
  | outOfData
  /-- msgpack reserved or unexpected marker byte in the generic decoder
  (spec: FormatError). -/
  | invalidHeader (b : Nat)
  /-- indexer: outer array length is not 3 (spec: FormatError). -/
  | badEnvelope (n : Nat)
  /-- indexer: magic does not equal b"dials::af::reflection_table"
  (spec: FormatError). -/
  | badMagic
  /-- indexer: expected a bin marker (0xC4/0xC5/0xC6) before a column payload,
  got something else; names the column (spec: FormatError). -/
  | badMarker (colName : List Nat) (marker : Nat)
  /-- indexer: blob size disagrees with element_size * count for a known type;
  names the column, the actual and the expected size (spec: SizeMismatch). -/
  | sizeMismatch (colName : List Nat) (blobSize : Nat) (expected : Int)
  /-- load: version field is not the supported value 1 (spec: FormatError). -/
  | unsupportedVersion (v : Option Int)
  /-- load: a column entry's type index does not resolve in the string table
  (Python IndexError; spec: structural corruption, FormatError). -/
  | indexOutOfBounds
  /-- reader: unknown column name; carries the available names
  (Python KeyError; spec: NotFound). -/
  | notFound (name : List Nat) (available : List (List Nat))
  /-- reader: negative or inverted range (Python ValueError; spec: RangeError). -/
  | rangeErr (start stop : Int)
  /-- reader: stop exceeds the column's row count; names column, bound, count
  (Python IndexError; spec: OutOfRange). -/
  | outOfRange (colName : List Nat) (stop : Int) (count : Int)
  /-- reader: fewer bytes read than requested (Python IOError;
  spec: ShortReadError). -/
  | shortRead (colName : List Nat) (expected got : Nat)
  /-- reader: the container file cannot be opened (missing file). -/
  | fileMissing
  /-- dtypes: type tag not in the catalog (Python ValueError
  "Unknown DIALS type"). -/
  | unknownType (ts : List Nat)
  /-- model restriction: a decoded msgpack object appears where the Python
  code would carry an arbitrary object onward (e.g. a non-integer "nrows"
  value, a non-string column name).  Containers hitting this constructor are
  outside the model; no claim depends on them. -/
  | unsupportedValue
  deriving Repr, DecidableEq

/-- Positioned byte stream: the not-yet-consumed bytes and the absolute
position of the next byte (the unpacker's `tell()`). -/
structure ByteStream where
  rem : List Nat
  pos : Nat
  deriving Repr, DecidableEq

/-- Strict read of one byte (raises OutOfData at end of input, as the
msgpack decoder does). -/
def readByte (st : ByteStream) : Except Err (Nat × ByteStream) :=
  match st.rem with
  | [] => .error .outOfData
  | b :: rest => .ok (b, ⟨rest, st.pos + 1⟩)

/-- Strict read of `n` bytes (raises OutOfData if fewer are available). -/
def readN (n : Nat) (st : ByteStream) : Except Err (List Nat × ByteStream) :=
  if n ≤ st.rem.length then .ok (st.rem.take n, ⟨st.rem.drop n, st.pos + n⟩)
  else .error .outOfData

/-- Lenient raw read, modelling `Unpacker.read_bytes(n)`: returns up to `n`
bytes, fewer at end of input, never raising. -/
def read_bytes (n : Nat) (st : ByteStream) : List Nat × ByteStream :=
  (st.rem.take n, ⟨st.rem.drop n, st.pos + min n st.rem.length⟩)

/-- Big-endian value of a byte list. -/
def beNat (bs : List Nat) : Nat := bs.foldl (fun a b => 256 * a + b) 0

/-- Two's-complement reading of an unsigned value of `w` bytes. -/
def sInt (w : Nat) (n : Nat) : Int :=
  if n < 256 ^ w / 2 then (n : Int) else (n : Int) - (256 ^ w : Nat)

/-- Decoded msgpack object, as produced by `Unpacker.unpack()` with
`raw=True` (strings and bins both come back as bytes). -/
inductive MValue where
  | int (i : Int)
  | bin (bs : List Nat)
  | boolv (b : Bool)
  | nilv
  /-- float32/float64 payload kept as raw bytes (contents never inspected). -/
  | floatRaw (bs : List Nat)
  /-- ext/fixext payload kept as raw bytes. -/
  | extRaw (t : Nat) (bs : List Nat)
  | arr (vs : List MValue)
  | obj (vs : List MValue)
  deriving Repr, Inhabited

/-- Whether a decoded msgpack object equals a given byte string (Python
`value == some_bytes`; only ever true for bytes values). -/
def MValue.isBin (v : MValue) (bs : List Nat) : Bool :=
  match v with
  | .bin x => x == bs
  | _ => false

set_option maxRecDepth 4096

mutual

/-- Generic msgpack decode of one object, following the msgpack format
(the `Unpacker.unpack()` library call).  `fuel` only bounds the recursion
(one unit per decoded object or nesting level); every call site passes more
fuel than the stream has bytes, which always suffices because each decoded
object consumes at least one byte. -/
def unpackVal : Nat → ByteStream → Except Err (MValue × ByteStream)
  | 0, _ => .error .outOfData
  | fuel + 1, st => do
    let (b, st) ← readByte st
    if b ≤ 0x7f then .ok (.int b, st)
    else if b ≤ 0x8f then do
      let (vs, st) ← unpackList fuel (2 * (b - 0x80)) st
      .ok (.obj vs, st)
    else if b ≤ 0x9f then do
      let (vs, st) ← unpackList fuel (b - 0x90) st
      .ok (.arr vs, st)
    else if b ≤ 0xbf then do
      let (bs, st) ← readN (b - 0xa0) st
      .ok (.bin bs, st)
    else if b = 0xc0 then .ok (.nilv, st)
    else if b = 0xc2 then .ok (.boolv false, st)
    else if b = 0xc3 then .ok (.boolv true, st)
    else if b = 0xc4 then do
      let (lb, st) ← readN 1 st
      let (bs, st) ← readN (beNat lb) st
      .ok (.bin bs, st)
    else if b = 0xc5 then do
      let (lb, st) ← readN 2 st
      let (bs, st) ← readN (beNat lb) st
      .ok (.bin bs, st)
    else if b = 0xc6 then do
      let (lb, st) ← readN 4 st
      let (bs, st) ← readN (beNat lb) st
      .ok (.bin bs, st)
    else if b = 0xc7 ∨ b = 0xc8 ∨ b = 0xc9 then do
      let w := if b = 0xc7 then 1 else if b = 0xc8 then 2 else 4
      let (lb, st) ← readN w st
      let (tb, st) ← readByte st
      let (bs, st) ← readN (beNat lb) st
      .ok (.extRaw tb bs, st)
    else if b = 0xca then do
      let (bs, st) ← readN 4 st
      .ok (.floatRaw bs, st)
    else if b = 0xcb then do
      let (bs, st) ← readN 8 st
      .ok (.floatRaw bs, st)
    else if b = 0xcc ∨ b = 0xcd ∨ b = 0xce ∨ b = 0xcf then do
      let w := if b = 0xcc then 1 else if b = 0xcd then 2 else if b = 0xce then 4 else 8
      let (bs, st) ← readN w st
      .ok (.int (beNat bs), st)
    else if b = 0xd0 ∨ b = 0xd1 ∨ b = 0xd2 ∨ b = 0xd3 then do
      let w := if b = 0xd0 then 1 else if b = 0xd1 then 2 else if b = 0xd2 then 4 else 8
      let (bs, st) ← readN w st
      .ok (.int (sInt w (beNat bs)), st)
    else if b ≤ 0xd8 then do
      let w := 2 ^ (b - 0xd4)
      let (tb, st) ← readByte st
      let (bs, st) ← readN w st
      .ok (.extRaw tb bs, st)
    else if b = 0xd9 then do
      let (lb, st) ← readN 1 st
      let (bs, st) ← readN (beNat lb) st
      .ok (.bin bs, st)
    else if b = 0xda then do
      let (lb, st) ← readN 2 st
      let (bs, st) ← readN (beNat lb) st
      .ok (.bin bs, st)
    else if b = 0xdb then do
      let (lb, st) ← readN 4 st
      let (bs, st) ← readN (beNat lb) st
      .ok (.bin bs, st)
    else if b = 0xdc then do
      let (lb, st) ← readN 2 st
      let (vs, st) ← unpackList fuel (beNat lb) st
      .ok (.arr vs, st)
    else if b = 0xdd then do
      let (lb, st) ← readN 4 st
      let (vs, st) ← unpackList fuel (beNat lb) st
      .ok (.arr vs, st)
    else if b = 0xde then do
      let (lb, st) ← readN 2 st
      let (vs, st) ← unpackList fuel (2 * beNat lb) st
      .ok (.obj vs, st)
    else if b = 0xdf then do
      let (lb, st) ← readN 4 st
      let (vs, st) ← unpackList fuel (2 * beNat lb) st
      .ok (.obj vs, st)
    else if b ≤ 0xff then .ok (.int ((b : Int) - 256), st)
    else .error (.invalidHeader b)
termination_by structural fuel _ => fuel

/-- Decode `n` consecutive msgpack objects. -/
def unpackList : Nat → Nat → ByteStream → Except Err (List MValue × ByteStream)
  | _, 0, st => .ok ([], st)
  | 0, _ + 1, _ => .error .outOfData
  | fuel + 1, n + 1, st => do
    let (v, st) ← unpackVal fuel st
    let (vs, st) ← unpackList fuel n st
    .ok (v :: vs, st)
termination_by structural fuel _ _ => fuel

end

/-- `Unpacker.unpack()`: decode one object.  The fuel bound always exceeds the
number of available bytes, so it never cuts a decode short. -/
def unpack (st : ByteStream) : Except Err (MValue × ByteStream) :=
  unpackVal (st.rem.length + 1) st

/-- `Unpacker.skip()`: decode one object, discarding it. -/
def skip (st : ByteStream) : Except Err ByteStream := do
  let (_, st) ← unpack st
  .ok st

/-- `Unpacker.read_array_header()`: accepts fixarray/array16/array32 markers,
returning the element count. -/
def read_array_header (st : ByteStream) : Except Err (Nat × ByteStream) := do
  let (b, st) ← readByte st
  if 0x90 ≤ b ∧ b ≤ 0x9f then .ok (b - 0x90, st)
  else if b = 0xdc then do
    let (lb, st) ← readN 2 st
    .ok (beNat lb, st)
  else if b = 0xdd then do
    let (lb, st) ← readN 4 st
    .ok (beNat lb, st)
  else .error (.invalidHeader b)

/-- `Unpacker.read_map_header()`: accepts fixmap/map16/map32 markers,
returning the pair count. -/
def read_map_header (st : ByteStream) : Except Err (Nat × ByteStream) := do
  let (b, st) ← readByte st
  if 0x80 ≤ b ∧ b ≤ 0x8f then .ok (b - 0x80, st)
  else if b = 0xde then do
    let (lb, st) ← readN 2 st
    .ok (beNat lb, st)
  else if b = 0xdf then do
    let (lb, st) ← readN 4 st
    .ok (beNat lb, st)
  else .error (.invalidHeader b)

/-! ## Type catalog (refl_index/dtypes.py) -/

/-- DIALS_TYPES: type tag → (bytes per row, numpy dtype string, description). -/
def DIALS_TYPES : List (List Nat × Nat × String × String) :=
  [ (s2b "double",                 (8,  "<f8", "64-bit float")),
    (s2b "int",                    (4,  "<i4", "32-bit signed int")),
    (s2b "bool",                   (1,  "?",   "boolean")),
    (s2b "std::size_t",            (8,  "<u8", "64-bit unsigned int")),
    (s2b "int6",                   (24, "<i4", "6 x 32-bit int (e.g. shoebox bounding box)")),
    (s2b "vec3<double>",           (24, "<f8", "3 x 64-bit float")),
    (s2b "cctbx::miller::index<>", (12, "<i4", "3 x 32-bit int (Miller index)")) ]

/-- Number of sub-elements per row for multi-element types
(_MULTI_ELEMENT_COUNTS). -/
def MULTI_ELEMENT_COUNTS : List (List Nat × Nat) :=
  [ (s2b "int6", 6), (s2b "vec3<double>", 3), (s2b "cctbx::miller::index<>", 3) ]

/-- Catalog lookup (`type_str in DIALS_TYPES` plus the entry itself). -/
def lookupType (ts : List Nat) : Option (Nat × String × String) :=
  (DIALS_TYPES.find? (fun e => e.1 == ts)).map (·.2)

/-- Python `type_str in DIALS_TYPES`. -/
def isDialsType (ts : List Nat) : Bool := (lookupType ts).isSome

/-- `element_size(type_str)`: byte size of one row; ValueError on an unknown
type tag. -/
def element_size (ts : List Nat) : Except Err Nat :=
  match lookupType ts with
  | some e => .ok e.1
  | none => .error (.unknownType ts)

/-- `numpy_dtype(type_str)`: numpy dtype string; ValueError on an unknown
type tag. -/
def numpy_dtype (ts : List Nat) : Except Err String :=
  match lookupType ts with
  | some e => .ok e.2.1
  | none => .error (.unknownType ts)

/-- `numpy_shape(type_str, nrows)`: `(nrows, sub)` for multi-element types,
`(nrows,)` otherwise; ValueError on an unknown type tag. -/
def numpy_shape (ts : List Nat) (nrows : Int) : Except Err (List Int) :=
  match lookupType ts with
  | some _ =>
    match (MULTI_ELEMENT_COUNTS.find? (fun e => e.1 == ts)).map (·.2) with
    | some sub => .ok [nrows, (sub : Int)]
    | none => .ok [nrows]
  | none => .error (.unknownType ts)

/-! ## Indexer data model (refl_index/indexer.py) -/

/-- ColumnInfo: metadata for one column in a .refl file. -/
structure ColumnInfo where
  name : List Nat
  type_str : List Nat
  elem_size : Nat
  count : Int
  blob_offset : Nat
  blob_size : Nat
  deriving Repr, DecidableEq

/-- ReflIndex: sidecar index value for one container file (the mutable-free
content of the Python ReflIndex object; `_column_map` is derived, see
`ReflIndex.getCol`). -/
structure ReflIndex where
  refl_path : String
  file_size : Nat
  nrows : Int
  num_identifiers : Nat
  columns : List ColumnInfo
  deriving Repr, DecidableEq

/-- The `_column_map` dict built by `{c.name: c for c in columns}` followed by
lookup: the later of two same-named columns wins, as in a Python dict
comprehension. -/
def columnMap (cols : List ColumnInfo) (name : List Nat) : Option ColumnInfo :=
  cols.foldl (fun acc c => if c.name = name then some c else acc) none

/-- `index[name]` / `name in index` via the derived column map. -/
def ReflIndex.getCol (idx : ReflIndex) (name : List Nat) : Option ColumnInfo :=
  columnMap idx.columns name

/-- `index.column_names`. -/
def ReflIndex.column_names (idx : ReflIndex) : List (List Nat) :=
  idx.columns.map (·.name)

/-! ## ReflIndex.build -/

/-- Key constant "nrows". -/
def keyNrows : List Nat := s2b "nrows"
/-- Key constant "identifiers". -/
def keyIdentifiers : List Nat := s2b "identifiers"
/-- Key constant "data". -/
def keyData : List Nat := s2b "data"
/-- The magic byte string b"dials::af::reflection_table". -/
def magicBytes : List Nat := s2b "dials::af::reflection_table"

/-- Chunk size for draining binary blobs during indexing (_DRAIN_CHUNK). -/
def DRAIN_CHUNK : Nat := 1 * 1024 * 1024

/-- Require a bytes value (`isinstance(v, bytes)` then utf-8 decode, which is
the identity here).  The Python code would keep a non-bytes object unchanged
and carry it onward; such containers are outside this model
(`Err.unsupportedValue`). -/
def asBin (v : MValue) : Except Err (List Nat) :=
  match v with
  | .bin bs => .ok bs
  | _ => .error .unsupportedValue

/-- Require an integer value.  The Python code stores whatever object was
decoded (e.g. for "nrows" or a column count); non-integer values there are
outside this model (`Err.unsupportedValue`). -/
def asInt (v : MValue) : Except Err Int :=
  match v with
  | .int i => .ok i
  | _ => .error .unsupportedValue

/-- Manual decode of the payload's bin header (indexer.py lines 139-158):
read exactly one marker byte with `read_bytes(1)`; 0xC4 reads a 1-byte
length, 0xC5 a 2-byte big-endian length, 0xC6 a 4-byte big-endian length;
any other marker raises ValueError naming the column.  Short reads surface
as the IndexError/struct.error a truncated file would produce. -/
def binHeader (colName : List Nat) (st : ByteStream) : Except Err (Nat × ByteStream) :=
  let (mb, st1) := read_bytes 1 st
  match mb with
  | [] => .error .outOfData
  | marker :: _ =>
    if marker = 0xc4 then
      let (lb, st2) := read_bytes 1 st1
      match lb with
      | [l] => .ok (l, st2)
      | _ => .error .outOfData
    else if marker = 0xc5 then
      let (lb, st2) := read_bytes 2 st1
      if lb.length = 2 then .ok (beNat lb, st2) else .error .outOfData
    else if marker = 0xc6 then
      let (lb, st2) := read_bytes 4 st1
      if lb.length = 4 then .ok (beNat lb, st2) else .error .outOfData
    else .error (.badMarker colName marker)

/-- Size verification (indexer.py lines 162-169): if the type tag is known,
the blob size must equal `element_size(type_str) * count`, else ValueError
(spec: SizeMismatch) naming the column.  Unknown tags are not checked. -/
def checkSize (colName ts : List Nat) (blobSize : Nat) (count : Int) : Except Err Unit :=
  match lookupType ts with
  | some e =>
    let expected : Int := (e.1 : Int) * count
    if (blobSize : Int) ≠ expected then .error (.sizeMismatch colName blobSize expected)
    else .ok ()
  | none => .ok ()

/-- Drain loop with an explicit iteration bound: each pass reads one chunk of
`min DRAIN_CHUNK remaining` bytes via `read_bytes` and decrements `remaining`
by the chunk size whether or not the stream still had that many bytes
(`read_bytes` does not raise on short reads). -/
def drainFuel : Nat → Nat → ByteStream → ByteStream
  | 0, _, st => st
  | f + 1, remaining, st =>
    if remaining = 0 then st
    else drainFuel f (remaining - min DRAIN_CHUNK remaining)
      (read_bytes (min DRAIN_CHUNK remaining) st).2

/-- Drain the blob in `DRAIN_CHUNK`-sized chunks (indexer.py lines 171-176).
`remaining` iterations always suffice since every pass consumes at least one
unit of `remaining`. -/
def drain (remaining : Nat) (st : ByteStream) : ByteStream :=
  drainFuel remaining remaining st

/-- Processing of a single entry of the "data" map (indexer.py lines
117-186): column name, `[type_str, [count, blob]]` with both array headers
read but their arity unchecked, the manual bin header, `blob_offset :=
tell()`, the size check, the chunked drain, and the assembled ColumnInfo
(element size 0 for unknown tags). -/
def colStep (st : ByteStream) : Except Err (ColumnInfo × ByteStream) := do
  let (nameV, st) ← unpack st
  let colName ← asBin nameV
  let (_, st) ← read_array_header st
  let (tsV, st) ← unpack st
  let type_str ← asBin tsV
  let (_, st) ← read_array_header st
  let (cntV, st) ← unpack st
  let count ← asInt cntV
  let (blob_size, st) ← binHeader colName st
  let blob_offset := st.pos
  checkSize colName type_str blob_size count
  let st := drain blob_size st
  let elem_sz := match lookupType type_str with
    | some e => e.1
    | none => 0
  .ok (⟨colName, type_str, elem_sz, count, blob_offset, blob_size⟩, st)

/-- The part of a column step before the bin header: name, the two inner
array headers, type string and count (indexer.py lines 115-137).  `colStep`
factors through it; stating the bin-header facts against this prefix ties
them to the stream state the real run reaches. -/
def colPrefix (st : ByteStream) : Except Err ((List Nat × List Nat × Int) × ByteStream) := do
  let (nameV, st) ← unpack st
  let colName ← asBin nameV
  let (_, st) ← read_array_header st
  let (tsV, st) ← unpack st
  let type_str ← asBin tsV
  let (_, st) ← read_array_header st
  let (cntV, st) ← unpack st
  let count ← asInt cntV
  .ok ((colName, type_str, count), st)

/-- The loop over the "data" map's columns, appending in encounter order. -/
def colLoop : Nat → ByteStream → List ColumnInfo → Except Err (List ColumnInfo × ByteStream)
  | 0, st, cols => .ok (cols, st)
  | n + 1, st, cols => do
    let (ci, st) ← colStep st
    colLoop n st (cols ++ [ci])

/-- Skip the `n` key/value pairs of the "identifiers" map. -/
def skipPairs : Nat → ByteStream → Except Err ByteStream
  | 0, st => .ok st
  | n + 1, st => do
    let st ← skip st
    let st ← skip st
    skipPairs n st

/-- The loop over the main map's keys (indexer.py lines 100-190): "nrows"
stores the decoded integer, "identifiers" records the map's cardinality and
skips its entries, "data" processes the columns, and any other key has its
value skipped generically. -/
def buildLoop : Nat → ByteStream → Int → Nat → List ColumnInfo →
    Except Err (Int × Nat × List ColumnInfo)
  | 0, _, nrows, nids, cols => .ok (nrows, nids, cols)
  | n + 1, st, nrows, nids, cols => do
    let (keyV, st) ← unpack st
    if keyV.isBin keyNrows then do
      let (v, st) ← unpack st
      let nr ← asInt v
      buildLoop n st nr nids cols
    else if keyV.isBin keyIdentifiers then do
      let (m, st) ← read_map_header st
      let st ← skipPairs m st
      buildLoop n st nrows m cols
    else if keyV.isBin keyData then do
      let (nc, st) ← read_map_header st
      let (cols, st) ← colLoop nc st cols
      buildLoop n st nrows nids cols
    else do
      let st ← skip st
      buildLoop n st nrows nids cols

/-- `ReflIndex.build(refl_path)`: scan the container `data` (the bytes of the
file at `refl_path`; `file_size` is its total length, as `stat()` reports):
outer 3-element envelope, magic check, version decoded but unused, then the
main map loop.  Bytes after the main map are never inspected. -/
def ReflIndex.build (refl_path : String) (data : List Nat) : Except Err ReflIndex := do
  let st : ByteStream := ⟨data, 0⟩
  let (outerLen, st) ← read_array_header st
  if outerLen ≠ 3 then throw (.badEnvelope outerLen)
  let (magic, st) ← unpack st
  if ¬ magic.isBin magicBytes then throw .badMagic
  let (_version, st) ← unpack st
  let (mainLen, st) ← read_map_header st
  let (nrows, num_identifiers, columns) ← buildLoop mainLen st 0 0 []
  .ok ⟨refl_path, data.length, nrows, num_identifiers, columns⟩

/-! ## Sidecar persistence (ReflIndex.save / ReflIndex.load)

The on-disk representation is JSON; per the spec only the document schema is
relevant, so the JSON text layer is abstracted: `save` produces the document
value that `json.dump` would serialise and `load` consumes the document value
that `json.load` would parse.  `version` is an `Option` because `load` reads
it with `doc.get("version")`, which yields `None` when the field is absent. -/

/-- One compact column entry of the document:
`[name, type_idx, elem_size, count, blob_offset, blob_size]`.  The type index
is a Python int (JSON number), hence `Int`. -/
structure ColEntry where
  name : List Nat
  type_idx : Int
  elem_size : Nat
  count : Int
  blob_offset : Nat
  blob_size : Nat
  deriving Repr, DecidableEq

/-- The sidecar document written by `save` and read by `load`. -/
structure IdxDoc where
  version : Option Int
  refl_path : String
  file_size : Nat
  created_at : String
  nrows : Int
  num_identifiers : Nat
  num_columns : Nat
  type_strs : List (List Nat)
  columns : List ColEntry
  deriving Repr, DecidableEq

/-- Lexicographic byte-list order, matching Python string comparison: strings
sort by code points and UTF-8 byte order coincides with code-point order. -/
def lexLeB : List Nat → List Nat → Bool
  | [], _ => true
  | _ :: _, [] => false
  | x :: xs, y :: ys => if x < y then true else if y < x then false else lexLeB xs ys

/-- Insert into a lexicographically sorted list. -/
def insertSorted (x : List Nat) : List (List Nat) → List (List Nat)
  | [] => [x]
  | y :: ys => if lexLeB x y then x :: y :: ys else y :: insertSorted x ys

/-- Insertion sort by `lexLeB`. -/
def sortStrs : List (List Nat) → List (List Nat)
  | [] => []
  | x :: xs => insertSorted x (sortStrs xs)

/-- `sorted(set(xs))`: the distinct elements in ascending order. -/
def sortedDedup (xs : List (List Nat)) : List (List Nat) :=
  sortStrs xs.dedup

/-- Index of a string in the deduplicated table (the dict
`{t: i for i, t in enumerate(type_strs)}`). -/
def strIndex (t : List Nat) : List (List Nat) → Nat
  | [] => 0
  | x :: xs => if x = t then 0 else strIndex t xs + 1

/-- `ReflIndex.save`: assemble the document with the deduplicated, sorted
type-string table and the compact column entries.  `created_at` is the
wall-clock timestamp (`datetime.now`), passed in explicitly; `load` ignores
it. -/
def ReflIndex.save (idx : ReflIndex) (created_at : String) : IdxDoc :=
  let type_strs := sortedDedup (idx.columns.map (·.type_str))
  ⟨some 1, idx.refl_path, idx.file_size, created_at, idx.nrows,
   idx.num_identifiers, idx.columns.length, type_strs,
   idx.columns.map fun c =>
     ⟨c.name, (strIndex c.type_str type_strs : Int), c.elem_size, c.count,
      c.blob_offset, c.blob_size⟩⟩

/-- Python list indexing `type_strs[type_idx]`: negative indices count from
the end; out of range raises IndexError. -/
def pyGet (l : List (List Nat)) (i : Int) : Except Err (List Nat) :=
  let j : Int := if i < 0 then (l.length : Int) + i else i
  if 0 ≤ j then
    match l.get? j.toNat with
    | some x => .ok x
    | none => .error .indexOutOfBounds
  else .error .indexOutOfBounds

/-- The column-reassembly loop of `load`, resolving each entry's type index
through the string table. -/
def loadColumns (tss : List (List Nat)) : List ColEntry → Except Err (List ColumnInfo)
  | [] => .ok []
  | e :: rest => do
    let ts ← pyGet tss e.type_idx
    let more ← loadColumns tss rest
    .ok (⟨e.name, ts, e.elem_size, e.count, e.blob_offset, e.blob_size⟩ :: more)

/-- `ReflIndex.load`: reject any document whose version field is not 1
(including an absent field), then rebuild the columns from the string table
and the compact entries. -/
def ReflIndex.load (doc : IdxDoc) : Except Err ReflIndex := do
  if doc.version ≠ some 1 then throw (.unsupportedVersion doc.version)
  let columns ← loadColumns doc.type_strs doc.columns
  .ok ⟨doc.refl_path, doc.file_size, doc.nrows, doc.num_identifiers, columns⟩

/-! ## Reader (refl_index/reader.py) -/

/-- A numpy array at the reader's boundary: dtype string, logical shape, and
the underlying raw bytes.  Numeric materialisation is outside the core. -/
structure NpArray where
  dtype : String
  shape : List Int
  data : List Nat
  deriving Repr, DecidableEq

/-- ReflReader: the index plus the resolved container file.  `file` is the
content of the container file at the reader's path, `none` when the file is
missing (opening it raises). -/
structure ReflReader where
  index : ReflIndex
  file : Option (List Nat)
  deriving Repr, DecidableEq

/-- `_get_column`: KeyError listing the available names when the column is
unknown. -/
def get_column (idx : ReflIndex) (name : List Nat) : Except Err ColumnInfo :=
  match idx.getCol name with
  | none => .error (.notFound name idx.column_names)
  | some c => .ok c

/-- `_validate_range`: non-negative, not inverted, and `stop` within the
column's row count. -/
def validate_range (col : ColumnInfo) (start stop : Int) : Except Err Unit :=
  if start < 0 ∨ stop < 0 then .error (.rangeErr start stop)
  else if start > stop then .error (.rangeErr start stop)
  else if stop > col.count then .error (.outOfRange col.name stop col.count)
  else .ok ()

/-- Open the container file (raises when it is missing). -/
def openFile (r : ReflReader) : Except Err (List Nat) :=
  match r.file with
  | some d => .ok d
  | none => .error .fileMissing

/-- `f.seek(off)` then `f.read(cnt)`: the bytes of the half-open byte range,
clipped at end of file. -/
def fileRead (d : List Nat) (off cnt : Nat) : List Nat :=
  (d.drop off).take cnt

/-- `read_column_raw(name, start, stop)`: raw bytes of rows `[start, stop)`.
`stop = none` defaults to the column's count.  A zero-row range returns empty
before the file is opened.  Otherwise seek to
`blob_offset + start * elem_size`, read `(stop - start) * elem_size` bytes,
and raise ShortReadError when fewer come back. -/
def read_column_raw (r : ReflReader) (name : List Nat) (start : Int)
    (stop? : Option Int) : Except Err (List Nat) := do
  let col ← get_column r.index name
  let stop := stop?.getD col.count
  validate_range col start stop
  let nrows := stop - start
  if nrows = 0 then .ok []
  else do
    let byte_offset : Int := (col.blob_offset : Int) + start * col.elem_size
    let byte_count : Int := nrows * col.elem_size
    let d ← openFile r
    let raw := fileRead d byte_offset.toNat byte_count.toNat
    if (raw.length : Int) ≠ byte_count then
      throw (.shortRead name byte_count.toNat raw.length)
    .ok raw

/-- `read_column(name, start, stop)`: as the raw read, but materialised as a
numpy array.  A zero-row range resolves dtype and shape (raising on an
unknown type tag) and returns an empty array without touching the file; a
non-empty range reads the bytes first and resolves dtype and shape after the
short-read check, as the source does. -/
def read_column (r : ReflReader) (name : List Nat) (start : Int)
    (stop? : Option Int) : Except Err NpArray := do
  let col ← get_column r.index name
  let stop := stop?.getD col.count
  validate_range col start stop
  let nrows := stop - start
  if nrows = 0 then do
    let dtype ← numpy_dtype col.type_str
    let shape ← numpy_shape col.type_str 0
    .ok ⟨dtype, shape, []⟩
  else do
    let byte_offset : Int := (col.blob_offset : Int) + start * col.elem_size
    let byte_count : Int := nrows * col.elem_size
    let d ← openFile r
    let raw := fileRead d byte_offset.toNat byte_count.toNat
    if (raw.length : Int) ≠ byte_count then
      throw (.shortRead name byte_count.toNat raw.length)
    let dtype ← numpy_dtype col.type_str
    let shape ← numpy_shape col.type_str nrows
    .ok ⟨dtype, shape, raw⟩

/-- `read_columns(names, start, stop)`: independent per-column reads in list
order, the first failure propagating (the dict comprehension's evaluation
order). -/
def read_columns (r : ReflReader) (names : List (List Nat)) (start : Int)
    (stop? : Option Int) : Except Err (List (List Nat × NpArray)) :=
  match names with
  | [] => .ok []
  | n :: rest => do
    let a ← read_column r n start stop?
    let more ← read_columns r rest start stop?
    .ok ((n, a) :: more)

/-! ## A msgpack encoder for container files

To quantify over container files ("for every valid container file ...", "if
the container's main map lacks ...") we encode structured container values
into bytes exactly as a msgpack packer does, and prove how `build` behaves on
the encoding.  This mirrors the synthetic-container construction the
repository's own tests use. -/

/-- Big-endian encoding of `n` into exactly `w` bytes. -/
def beBytes (w : Nat) (n : Nat) : List Nat :=
  match w with
  | 0 => []
  | v + 1 => beBytes v (n / 256) ++ [n % 256]

/-- Pack an integer with the smallest msgpack representation, as
`msgpack.Packer` does.  Out-of-range integers (not representable in msgpack)
encode to `[]`; well-formedness conditions exclude them. -/
def encodeInt (i : Int) : List Nat :=
  if 0 ≤ i then
    let n := i.toNat
    if n ≤ 0x7f then [n]
    else if n ≤ 0xff then [0xcc, n]
    else if n ≤ 0xffff then 0xcd :: beBytes 2 n
    else if n < 2 ^ 32 then 0xce :: beBytes 4 n
    else if n < 2 ^ 64 then 0xcf :: beBytes 8 n
    else []
  else
    if -32 ≤ i then [(i + 256).toNat]
    else if -128 ≤ i then [0xd0, (i + 256).toNat]
    else if -(2 ^ 15) ≤ i then 0xd1 :: beBytes 2 (i + 2 ^ 16).toNat
    else if -(2 ^ 31) ≤ i then 0xd2 :: beBytes 4 (i + 2 ^ 32).toNat
    else if -(2 ^ 63) ≤ i then 0xd3 :: beBytes 8 (i + 2 ^ 64).toNat
    else []

/-- Pack a str value (fixstr/str8/str16/str32 by length). -/
def encodeStr (s : List Nat) : List Nat :=
  if s.length ≤ 31 then (0xa0 + s.length) :: s
  else if s.length ≤ 0xff then 0xd9 :: s.length :: s
  else if s.length ≤ 0xffff then 0xda :: beBytes 2 s.length ++ s
  else if s.length < 2 ^ 32 then 0xdb :: beBytes 4 s.length ++ s
  else []

/-- The bin header (marker and length field) for a payload of the given
length: bin8 below 2^8, bin16 below 2^16, bin32 below 2^32. -/
def binPrefix (bs : List Nat) : List Nat :=
  if bs.length ≤ 0xff then [0xc4, bs.length]
  else if bs.length ≤ 0xffff then 0xc5 :: beBytes 2 bs.length
  else if bs.length < 2 ^ 32 then 0xc6 :: beBytes 4 bs.length
  else []

/-- Pack a bin value: header then raw payload. -/
def encodeBin (bs : List Nat) : List Nat := binPrefix bs ++ bs

/-- Pack an array header (fixarray/array16/array32). -/
def arrayHeaderBytes (n : Nat) : List Nat :=
  if n ≤ 15 then [0x90 + n]
  else if n ≤ 0xffff then 0xdc :: beBytes 2 n
  else 0xdd :: beBytes 4 n

/-- Pack a map header (fixmap/map16/map32). -/
def mapHeaderBytes (n : Nat) : List Nat :=
  if n ≤ 15 then [0x80 + n]
  else if n ≤ 0xffff then 0xde :: beBytes 2 n
  else 0xdf :: beBytes 4 n

/-- A scalar value as the packer writes it (identifier keys and values,
values of unrecognised top-level keys). -/
inductive PackVal where
  | pint (i : Int)
  | pstr (s : List Nat)
  | pbin (bs : List Nat)
  deriving Repr, DecidableEq

/-- Encode a scalar value. -/
def encodePack : PackVal → List Nat
  | .pint i => encodeInt i
  | .pstr s => encodeStr s
  | .pbin bs => encodeBin bs

/-- The object the decoder yields for an encoded scalar (`raw=True`: strings
come back as bytes). -/
def packToM : PackVal → MValue
  | .pint i => .int i
  | .pstr s => .bin s
  | .pbin bs => .bin bs

/-- Representable-by-the-packer condition for scalars. -/
def WFPack : PackVal → Prop
  | .pint i => -(2 ^ 63) ≤ i ∧ i < 2 ^ 64
  | .pstr s => s.length < 2 ^ 32
  | .pbin bs => bs.length < 2 ^ 32

/-- One column of the container's "data" map:
`name: [type_str, [count, blob]]`. -/
structure DataCol where
  name : List Nat
  type_str : List Nat
  count : Int
  blob : List Nat
  deriving Repr, DecidableEq

/-- Encode one "data" entry: packed name, a 2-element fixarray holding the
type tag and a 2-element fixarray of the count and the bin payload. -/
def encodeDataCol (dc : DataCol) : List Nat :=
  encodeStr dc.name ++ [0x92] ++ encodeStr dc.type_str ++ [0x92] ++
    encodeInt dc.count ++ binPrefix dc.blob ++ dc.blob

/-- One key of the container's main map. -/
inductive Entry where
  | nrowsE (v : Int)
  | identifiersE (ids : List (PackVal × PackVal))
  | dataE (cols : List DataCol)
  | otherE (key : List Nat) (v : PackVal)
  deriving Repr

/-- Encode one main-map entry (packed key, then its value). -/
def encodeEntry : Entry → List Nat
  | .nrowsE v => encodeStr keyNrows ++ encodeInt v
  | .identifiersE ids =>
    encodeStr keyIdentifiers ++ mapHeaderBytes ids.length ++
      (ids.map fun kv => encodePack kv.1 ++ encodePack kv.2).flatten
  | .dataE cols =>
    encodeStr keyData ++ mapHeaderBytes cols.length ++
      (cols.map encodeDataCol).flatten
  | .otherE key v => encodeStr key ++ encodePack v

/-- Encode a whole container file: 3-element envelope with the magic (packed
as a bin, as the repository's test packer does), version 1, and the main
map. -/
def encodeContainer (entries : List Entry) : List Nat :=
  0x93 :: encodeBin magicBytes ++ encodeInt 1 ++ mapHeaderBytes entries.length ++
    (entries.map encodeEntry).flatten

/-- Element size build records: catalog size for known tags, 0 otherwise. -/
def elemOf (ts : List Nat) : Nat :=
  match lookupType ts with
  | some e => e.1
  | none => 0

/-- Size-consistency condition a column must meet for `build` to accept it:
known tags need `blob.length = element_size * count` (unknown tags are
unchecked). -/
def SizeOk (dc : DataCol) : Prop :=
  match lookupType dc.type_str with
  | some e => (dc.blob.length : Int) = (e.1 : Int) * dc.count
  | none => True

/-- Well-formedness of one column: packer-representable fields and the size
consistency `build` enforces. -/
def WFCol (dc : DataCol) : Prop :=
  dc.name.length < 2 ^ 32 ∧ dc.type_str.length < 2 ^ 32 ∧
    (-(2 ^ 63) ≤ dc.count ∧ dc.count < 2 ^ 64) ∧ dc.blob.length < 2 ^ 32 ∧ SizeOk dc

/-- Well-formedness of one main-map entry.  Keys of `otherE` entries must
differ from the three recognised keys (those are covered by the dedicated
constructors). -/
def WFEntry : Entry → Prop
  | .nrowsE v => -(2 ^ 63) ≤ v ∧ v < 2 ^ 64
  | .identifiersE ids =>
    ids.length < 2 ^ 32 ∧ ∀ kv ∈ ids, WFPack kv.1 ∧ WFPack kv.2
  | .dataE cols => cols.length < 2 ^ 32 ∧ ∀ dc ∈ cols, WFCol dc
  | .otherE key v =>
    key.length < 2 ^ 32 ∧ key ≠ keyNrows ∧ key ≠ keyIdentifiers ∧
      key ≠ keyData ∧ WFPack v

instance decWFPack : DecidablePred WFPack := fun v =>
  match v with
  | .pint i => inferInstanceAs (Decidable (-(2 ^ 63) ≤ i ∧ i < 2 ^ 64))
  | .pstr s => inferInstanceAs (Decidable (s.length < 2 ^ 32))
  | .pbin bs => inferInstanceAs (Decidable (bs.length < 2 ^ 32))

instance decSizeOk : DecidablePred SizeOk := fun dc =>
  match hk : lookupType dc.type_str with
  | some e =>
    decidable_of_iff ((dc.blob.length : Int) = (e.1 : Int) * dc.count)
      (by unfold SizeOk; rw [hk])
  | none => decidable_of_iff True (by unfold SizeOk; rw [hk])

instance decWFCol : DecidablePred WFCol := fun dc =>
  inferInstanceAs (Decidable (dc.name.length < 2 ^ 32 ∧ dc.type_str.length < 2 ^ 32 ∧
    (-(2 ^ 63) ≤ dc.count ∧ dc.count < 2 ^ 64) ∧ dc.blob.length < 2 ^ 32 ∧ SizeOk dc))

instance decWFEntry : DecidablePred WFEntry := fun e =>
  match e with
  | .nrowsE v => inferInstanceAs (Decidable (-(2 ^ 63) ≤ v ∧ v < 2 ^ 64))
  | .identifiersE ids =>
    inferInstanceAs (Decidable (ids.length < 2 ^ 32 ∧ ∀ kv ∈ ids, WFPack kv.1 ∧ WFPack kv.2))
  | .dataE cols =>
    inferInstanceAs (Decidable (cols.length < 2 ^ 32 ∧ ∀ dc ∈ cols, WFCol dc))
  | .otherE key v =>
    inferInstanceAs (Decidable (key.length < 2 ^ 32 ∧ key ≠ keyNrows ∧
      key ≠ keyIdentifiers ∧ key ≠ keyData ∧ WFPack v))

/-- The size condition, spelt for each catalog hit. -/
theorem sizeOk_forall {dc : DataCol} (h : SizeOk dc) :
    ∀ e, lookupType dc.type_str = some e → (dc.blob.length : Int) = (e.1 : Int) * dc.count := by
  intro e he
  unfold SizeOk at h
  rw [he] at h
  exact h

/-- Length of one encoded column entry up to and including its bin header
(the part before the raw payload). -/
def colHdrLen (dc : DataCol) : Nat :=
  (encodeStr dc.name).length + 1 + (encodeStr dc.type_str).length + 1 +
    (encodeInt dc.count).length + (binPrefix dc.blob).length

/-- The columns `build` assembles from a "data" map whose encoding starts at
absolute position `p`: each blob offset is the position just past that
column's bin header. -/
def colsOf (p : Nat) : List DataCol → List ColumnInfo
  | [] => []
  | dc :: rest =>
    ⟨dc.name, dc.type_str, elemOf dc.type_str, dc.count, p + colHdrLen dc, dc.blob.length⟩ ::
      colsOf (p + colHdrLen dc + dc.blob.length) rest

/-- The fold `build`'s main loop performs over the encoded entries, starting
at absolute position `p`: "nrows" and "identifiers" overwrite their
accumulators, "data" appends its columns, other keys change nothing. -/
def entriesFold : List Entry → Nat → Int × Nat × List ColumnInfo →
    Int × Nat × List ColumnInfo
  | [], _, acc => acc
  | e :: rest, p, (nr, ni, cs) =>
    let acc' := match e with
      | .nrowsE v => (v, ni, cs)
      | .identifiersE ids => (nr, ids.length, cs)
      | .dataE cols =>
        (nr, ni, cs ++ colsOf (p + (encodeStr keyData).length +
          (mapHeaderBytes cols.length).length) cols)
      | .otherE _ _ => (nr, ni, cs)
    entriesFold rest (p + (encodeEntry e).length) acc'

/-- Position of the first main-map entry in an encoded container. -/
def entriesStart (n : Nat) : Nat :=
  1 + (encodeBin magicBytes).length + (encodeInt 1).length +
    (mapHeaderBytes n).length

/-- The index `build` produces for an encoded container. -/
def expectedIndex (path : String) (entries : List Entry) : ReflIndex :=
  let r := entriesFold entries (entriesStart entries.length) (0, 0, [])
  ⟨path, (encodeContainer entries).length, r.1, r.2.1, r.2.2⟩

/-- Decidable equality of results, for evaluating concrete runs. -/
instance instDecEqExceptR {ε α : Type} [DecidableEq ε] [DecidableEq α] :
    DecidableEq (Except ε α) := fun a b =>
  match a, b with
  | .ok x, .ok y => if h : x = y then .isTrue (by rw [h]) else .isFalse (by simp [h])
  | .ok _, .error _ => .isFalse (by simp)
  | .error _, .ok _ => .isFalse (by simp)
  | .error x, .error y => if h : x = y then .isTrue (by rw [h]) else .isFalse (by simp [h])

/-! ## Stream and decoding lemmas -/

theorem ebind_ok {α β : Type} (a : α) (f : α → Except Err β) :
    (Except.ok a : Except Err α) >>= f = f a := rfl

theorem ebind_err {α β : Type} (e : Err) (f : α → Except Err β) :
    (Except.error e : Except Err α) >>= f = .error e := rfl

theorem readByte_cons (b : Nat) (r : List Nat) (p : Nat) :
    readByte ⟨b :: r, p⟩ = .ok (b, ⟨r, p + 1⟩) := rfl

theorem readN_exact (bs r : List Nat) (p n : Nat) (h : bs.length = n) :
    readN n ⟨bs ++ r, p⟩ = .ok (bs, ⟨r, p + n⟩) := by
  subst h
  simp [readN, List.take_left, List.drop_left]

theorem read_bytes_exact (bs r : List Nat) (p n : Nat) (h : bs.length = n) :
    read_bytes n ⟨bs ++ r, p⟩ = (bs, ⟨r, p + n⟩) := by
  subst h
  simp [read_bytes, List.take_left, List.drop_left, Nat.min_def]

theorem beBytes_length (w n : Nat) : (beBytes w n).length = w := by
  induction w generalizing n with
  | zero => rfl
  | succ v ih => simp [beBytes, ih]

theorem beNat_snoc (bs : List Nat) (b : Nat) :
    beNat (bs ++ [b]) = 256 * beNat bs + b := by
  simp [beNat, List.foldl_append]

theorem beNat_one (a : Nat) : beNat [a] = a := by
  simp [beNat]

theorem beNat_beBytes (w n : Nat) (h : n < 256 ^ w) : beNat (beBytes w n) = n := by
  induction w generalizing n with
  | zero =>
    simp [beNat, beBytes]
    omega
  | succ v ih =>
    have hlt : n / 256 < 256 ^ v := by
      have : 256 ^ (v + 1) = 256 ^ v * 256 := by ring
      omega
    simp [beBytes, beNat_snoc, ih (n / 256) hlt]
    omega

/-! ### Decoding each encoded scalar shape -/

theorem unpack_def (st : ByteStream) : unpack st = unpackVal (st.rem.length + 1) st := rfl

theorem unpack_fixint (b : Nat) (r : List Nat) (p : Nat) (h : b ≤ 0x7f) :
    unpack ⟨b :: r, p⟩ = .ok (.int b, ⟨r, p + 1⟩) := by
  rw [unpack_def]
  simp only [List.length_cons]
  rw [unpackVal]
  simp only [readByte_cons, ebind_ok]
  rw [if_pos h]

theorem unpack_negfixint (b : Nat) (r : List Nat) (p : Nat) (h1 : 0xe0 ≤ b) (h2 : b ≤ 0xff) :
    unpack ⟨b :: r, p⟩ = .ok (.int ((b : Int) - 256), ⟨r, p + 1⟩) := by
  rw [unpack_def]
  simp only [List.length_cons]
  rw [unpackVal]
  simp only [readByte_cons, ebind_ok]
  iterate 23 rw [if_neg (by omega)]
  rw [if_pos (by omega)]

theorem unpack_uint8 (lb r : List Nat) (p : Nat) (h : lb.length = 1) :
    unpack ⟨0xcc :: (lb ++ r), p⟩ = .ok (.int (beNat lb), ⟨r, p + 2⟩) := by
  rw [unpack_def]
  simp only [List.length_cons, List.length_append, h]
  rw [unpackVal]
  simp only [readByte_cons, ebind_ok]
  norm_num
  simp only [readN_exact lb r (p + 1) 1 h, ebind_ok, Except.ok.injEq, Prod.mk.injEq,
    ByteStream.mk.injEq, MValue.int.injEq]
  all_goals omega

theorem unpack_uint16 (lb r : List Nat) (p : Nat) (h : lb.length = 2) :
    unpack ⟨0xcd :: (lb ++ r), p⟩ = .ok (.int (beNat lb), ⟨r, p + 3⟩) := by
  rw [unpack_def]
  simp only [List.length_cons, List.length_append, h]
  rw [unpackVal]
  simp only [readByte_cons, ebind_ok]
  norm_num
  simp only [readN_exact lb r (p + 1) 2 h, ebind_ok, Except.ok.injEq, Prod.mk.injEq,
    ByteStream.mk.injEq, MValue.int.injEq]
  all_goals omega

theorem unpack_uint32 (lb r : List Nat) (p : Nat) (h : lb.length = 4) :
    unpack ⟨0xce :: (lb ++ r), p⟩ = .ok (.int (beNat lb), ⟨r, p + 5⟩) := by
  rw [unpack_def]
  simp only [List.length_cons, List.length_append, h]
  rw [unpackVal]
  simp only [readByte_cons, ebind_ok]
  norm_num
  simp only [readN_exact lb r (p + 1) 4 h, ebind_ok, Except.ok.injEq, Prod.mk.injEq,
    ByteStream.mk.injEq, MValue.int.injEq]
  all_goals omega

theorem unpack_uint64 (lb r : List Nat) (p : Nat) (h : lb.length = 8) :
    unpack ⟨0xcf :: (lb ++ r), p⟩ = .ok (.int (beNat lb), ⟨r, p + 9⟩) := by
  rw [unpack_def]
  simp only [List.length_cons, List.length_append, h]
  rw [unpackVal]
  simp only [readByte_cons, ebind_ok]
  norm_num
  simp only [readN_exact lb r (p + 1) 8 h, ebind_ok, Except.ok.injEq, Prod.mk.injEq,
    ByteStream.mk.injEq, MValue.int.injEq]
  all_goals omega

theorem unpack_int8 (lb r : List Nat) (p : Nat) (h : lb.length = 1) :
    unpack ⟨0xd0 :: (lb ++ r), p⟩ = .ok (.int (sInt 1 (beNat lb)), ⟨r, p + 2⟩) := by
  rw [unpack_def]
  simp only [List.length_cons, List.length_append, h]
  rw [unpackVal]
  simp only [readByte_cons, ebind_ok]
  norm_num
  simp only [readN_exact lb r (p + 1) 1 h, ebind_ok, Except.ok.injEq, Prod.mk.injEq,
    ByteStream.mk.injEq, MValue.int.injEq]
  all_goals omega

theorem unpack_int16 (lb r : List Nat) (p : Nat) (h : lb.length = 2) :
    unpack ⟨0xd1 :: (lb ++ r), p⟩ = .ok (.int (sInt 2 (beNat lb)), ⟨r, p + 3⟩) := by
  rw [unpack_def]
  simp only [List.length_cons, List.length_append, h]
  rw [unpackVal]
  simp only [readByte_cons, ebind_ok]
  norm_num
  simp only [readN_exact lb r (p + 1) 2 h, ebind_ok, Except.ok.injEq, Prod.mk.injEq,
    ByteStream.mk.injEq, MValue.int.injEq]
  all_goals omega

theorem unpack_int32 (lb r : List Nat) (p : Nat) (h : lb.length = 4) :
    unpack ⟨0xd2 :: (lb ++ r), p⟩ = .ok (.int (sInt 4 (beNat lb)), ⟨r, p + 5⟩) := by
  rw [unpack_def]
  simp only [List.length_cons, List.length_append, h]
  rw [unpackVal]
  simp only [readByte_cons, ebind_ok]
  norm_num
  simp only [readN_exact lb r (p + 1) 4 h, ebind_ok, Except.ok.injEq, Prod.mk.injEq,
    ByteStream.mk.injEq, MValue.int.injEq]
  all_goals omega

theorem unpack_int64 (lb r : List Nat) (p : Nat) (h : lb.length = 8) :
    unpack ⟨0xd3 :: (lb ++ r), p⟩ = .ok (.int (sInt 8 (beNat lb)), ⟨r, p + 9⟩) := by
  rw [unpack_def]
  simp only [List.length_cons, List.length_append, h]
  rw [unpackVal]
  simp only [readByte_cons, ebind_ok]
  norm_num
  simp only [readN_exact lb r (p + 1) 8 h, ebind_ok, Except.ok.injEq, Prod.mk.injEq,
    ByteStream.mk.injEq, MValue.int.injEq]
  all_goals omega

theorem unpack_fixstr (s r : List Nat) (p : Nat) (h : s.length ≤ 31) :
    unpack ⟨(0xa0 + s.length) :: (s ++ r), p⟩ = .ok (.bin s, ⟨r, p + (1 + s.length)⟩) := by
  rw [unpack_def]
  simp only [List.length_cons, List.length_append]
  rw [unpackVal]
  simp only [readByte_cons, ebind_ok]
  rw [if_neg (by omega), if_neg (by omega), if_neg (by omega), if_pos (by omega)]
  rw [show 0xa0 + s.length - 0xa0 = s.length by omega, readN_exact s r (p + 1) s.length rfl,
    ebind_ok]
  simp [Nat.add_assoc]

theorem unpack_str8 (s r : List Nat) (p : Nat) (h : s.length ≤ 0xff) :
    unpack ⟨0xd9 :: s.length :: (s ++ r), p⟩ = .ok (.bin s, ⟨r, p + (2 + s.length)⟩) := by
  rw [unpack_def]
  simp only [List.length_cons, List.length_append]
  rw [unpackVal]
  simp only [readByte_cons, ebind_ok]
  norm_num
  rw [show (s.length :: (s ++ r) : List Nat) = [s.length] ++ (s ++ r) by simp,
    readN_exact [s.length] (s ++ r) (p + 1) 1 rfl, ebind_ok]
  dsimp only
  rw [beNat_one, readN_exact s r (p + 1 + 1) s.length rfl, ebind_ok]
  simp [Nat.add_assoc]

theorem unpack_str16 (lb s r : List Nat) (p : Nat) (h : lb.length = 2)
    (hb : beNat lb = s.length) :
    unpack ⟨0xda :: (lb ++ (s ++ r)), p⟩ = .ok (.bin s, ⟨r, p + (3 + s.length)⟩) := by
  rw [unpack_def]
  simp only [List.length_cons, List.length_append]
  rw [unpackVal]
  simp only [readByte_cons, ebind_ok]
  norm_num
  rw [readN_exact lb (s ++ r) (p + 1) 2 h, ebind_ok]
  dsimp only
  rw [hb, readN_exact s r (p + 1 + 2) s.length rfl, ebind_ok]
  simp [Nat.add_assoc]

theorem unpack_str32 (lb s r : List Nat) (p : Nat) (h : lb.length = 4)
    (hb : beNat lb = s.length) :
    unpack ⟨0xdb :: (lb ++ (s ++ r)), p⟩ = .ok (.bin s, ⟨r, p + (5 + s.length)⟩) := by
  rw [unpack_def]
  simp only [List.length_cons, List.length_append]
  rw [unpackVal]
  simp only [readByte_cons, ebind_ok]
  norm_num
  rw [readN_exact lb (s ++ r) (p + 1) 4 h, ebind_ok]
  dsimp only
  rw [hb, readN_exact s r (p + 1 + 4) s.length rfl, ebind_ok]
  simp [Nat.add_assoc]

theorem unpack_bin8 (s r : List Nat) (p : Nat) (h : s.length ≤ 0xff) :
    unpack ⟨0xc4 :: s.length :: (s ++ r), p⟩ = .ok (.bin s, ⟨r, p + (2 + s.length)⟩) := by
  rw [unpack_def]
  simp only [List.length_cons, List.length_append]
  rw [unpackVal]
  simp only [readByte_cons, ebind_ok]
  norm_num
  rw [show (s.length :: (s ++ r) : List Nat) = [s.length] ++ (s ++ r) by simp,
    readN_exact [s.length] (s ++ r) (p + 1) 1 rfl, ebind_ok]
  dsimp only
  rw [beNat_one, readN_exact s r (p + 1 + 1) s.length rfl, ebind_ok]
  simp [Nat.add_assoc]

theorem unpack_bin16 (lb s r : List Nat) (p : Nat) (h : lb.length = 2)
    (hb : beNat lb = s.length) :
    unpack ⟨0xc5 :: (lb ++ (s ++ r)), p⟩ = .ok (.bin s, ⟨r, p + (3 + s.length)⟩) := by
  rw [unpack_def]
  simp only [List.length_cons, List.length_append]
  rw [unpackVal]
  simp only [readByte_cons, ebind_ok]
  norm_num
  rw [readN_exact lb (s ++ r) (p + 1) 2 h, ebind_ok]
  dsimp only
  rw [hb, readN_exact s r (p + 1 + 2) s.length rfl, ebind_ok]
  simp [Nat.add_assoc]

theorem unpack_bin32 (lb s r : List Nat) (p : Nat) (h : lb.length = 4)
    (hb : beNat lb = s.length) :
    unpack ⟨0xc6 :: (lb ++ (s ++ r)), p⟩ = .ok (.bin s, ⟨r, p + (5 + s.length)⟩) := by
  rw [unpack_def]
  simp only [List.length_cons, List.length_append]
  rw [unpackVal]
  simp only [readByte_cons, ebind_ok]
  norm_num
  rw [readN_exact lb (s ++ r) (p + 1) 4 h, ebind_ok]
  dsimp only
  rw [hb, readN_exact s r (p + 1 + 4) s.length rfl, ebind_ok]
  simp [Nat.add_assoc]

/-! ### Decoding whole encoded values -/

theorem unpack_encodeInt (i : Int) (r : List Nat) (p : Nat)
    (h1 : -(2 ^ 63) ≤ i) (h2 : i < 2 ^ 64) :
    unpack ⟨encodeInt i ++ r, p⟩ = .ok (.int i, ⟨r, p + (encodeInt i).length⟩) := by
  by_cases hpos : 0 ≤ i
  · rw [encodeInt, if_pos hpos]
    have hi : (i.toNat : Int) = i := Int.toNat_of_nonneg hpos
    by_cases c1 : i.toNat ≤ 0x7f
    · rw [if_pos c1]
      simp only [List.cons_append, List.nil_append, List.length_cons, List.length_nil]
      rw [unpack_fixint i.toNat r p c1, hi]
    rw [if_neg c1]
    by_cases c2 : i.toNat ≤ 0xff
    · rw [if_pos c2]
      simp only [List.cons_append, List.nil_append, List.length_cons, List.length_nil]
      rw [show (i.toNat :: r : List Nat) = [i.toNat] ++ r by simp,
        unpack_uint8 [i.toNat] r p rfl, beNat_one, hi]
    rw [if_neg c2]
    by_cases c3 : i.toNat ≤ 0xffff
    · rw [if_pos c3]
      simp only [List.cons_append, List.length_cons, beBytes_length, List.length_append]
      rw [unpack_uint16 (beBytes 2 i.toNat) r p (beBytes_length 2 _),
        beNat_beBytes 2 i.toNat (by omega), hi]
    rw [if_neg c3]
    by_cases c4 : i.toNat < 2 ^ 32
    · rw [if_pos c4]
      simp only [List.cons_append, List.length_cons, beBytes_length, List.length_append]
      rw [unpack_uint32 (beBytes 4 i.toNat) r p (beBytes_length 4 _),
        beNat_beBytes 4 i.toNat (by norm_num at c4 ⊢; omega), hi]
    rw [if_neg c4]
    have c5 : i.toNat < 2 ^ 64 := by omega
    rw [if_pos c5]
    simp only [List.cons_append, List.length_cons, beBytes_length, List.length_append]
    rw [unpack_uint64 (beBytes 8 i.toNat) r p (beBytes_length 8 _),
      beNat_beBytes 8 i.toNat (by norm_num at c5 ⊢; omega), hi]
  · rw [encodeInt, if_neg hpos]
    by_cases c1 : -32 ≤ i
    · rw [if_pos c1]
      simp only [List.cons_append, List.nil_append, List.length_cons, List.length_nil]
      rw [unpack_negfixint (i + 256).toNat r p (by omega) (by omega)]
      simp only [Except.ok.injEq, Prod.mk.injEq, ByteStream.mk.injEq, MValue.int.injEq,
        and_true, true_and]
      omega
    rw [if_neg c1]
    by_cases c2 : -128 ≤ i
    · rw [if_pos c2]
      simp only [List.cons_append, List.nil_append, List.length_cons, List.length_nil]
      rw [show ((i + 256).toNat :: r : List Nat) = [(i + 256).toNat] ++ r by simp,
        unpack_int8 [(i + 256).toNat] r p rfl, beNat_one, sInt]
      rw [if_neg (show ¬ ((i + 256).toNat < 256 ^ 1 / 2) by omega)]
      simp only [Except.ok.injEq, Prod.mk.injEq, ByteStream.mk.injEq, MValue.int.injEq,
        and_true, true_and]
      omega
    rw [if_neg c2]
    by_cases c3 : -(2 ^ 15) ≤ i
    · rw [if_pos c3]
      simp only [List.cons_append, List.length_cons, beBytes_length, List.length_append]
      generalize hg : (i + 2 ^ 16).toNat = n
      rw [unpack_int16 (beBytes 2 n) r p (beBytes_length 2 n)]
      rw [beNat_beBytes 2 n (show n < 256 ^ 2 by omega)]
      rw [sInt, if_neg (show ¬ (n < 256 ^ 2 / 2) by omega)]
      simp only [Except.ok.injEq, Prod.mk.injEq, ByteStream.mk.injEq, MValue.int.injEq,
        and_true, true_and]
      omega
    rw [if_neg c3]
    by_cases c4 : -(2 ^ 31) ≤ i
    · rw [if_pos c4]
      simp only [List.cons_append, List.length_cons, beBytes_length, List.length_append]
      generalize hg : (i + 2 ^ 32).toNat = n
      rw [unpack_int32 (beBytes 4 n) r p (beBytes_length 4 n)]
      rw [beNat_beBytes 4 n (show n < 256 ^ 4 by omega)]
      rw [sInt, if_neg (show ¬ (n < 256 ^ 4 / 2) by omega)]
      simp only [Except.ok.injEq, Prod.mk.injEq, ByteStream.mk.injEq, MValue.int.injEq,
        and_true, true_and]
      omega
    rw [if_neg c4]
    have c5 : -(2 ^ 63) ≤ i := h1
    rw [if_pos c5]
    simp only [List.cons_append, List.length_cons, beBytes_length, List.length_append]
    generalize hg : (i + 2 ^ 64).toNat = n
    rw [unpack_int64 (beBytes 8 n) r p (beBytes_length 8 n)]
    rw [beNat_beBytes 8 n (show n < 256 ^ 8 by omega)]
    rw [sInt, if_neg (show ¬ (n < 256 ^ 8 / 2) by omega)]
    simp only [Except.ok.injEq, Prod.mk.injEq, ByteStream.mk.injEq, MValue.int.injEq,
      and_true, true_and]
    omega

theorem unpack_encodeStr (s r : List Nat) (p : Nat) (h : s.length < 2 ^ 32) :
    unpack ⟨encodeStr s ++ r, p⟩ = .ok (.bin s, ⟨r, p + (encodeStr s).length⟩) := by
  rw [encodeStr]
  by_cases c1 : s.length ≤ 31
  · rw [if_pos c1]
    simp only [List.cons_append, List.length_cons, List.length_append]
    rw [unpack_fixstr s r p c1]
    all_goals try simp only [Except.ok.injEq, Prod.mk.injEq, ByteStream.mk.injEq, true_and,
      and_true]
    all_goals omega
  rw [if_neg c1]
  by_cases c2 : s.length ≤ 0xff
  · rw [if_pos c2]
    simp only [List.cons_append, List.length_cons, List.length_append]
    rw [unpack_str8 s r p c2]
    all_goals try simp only [Except.ok.injEq, Prod.mk.injEq, ByteStream.mk.injEq, true_and,
      and_true]
    all_goals omega
  rw [if_neg c2]
  by_cases c3 : s.length ≤ 0xffff
  · rw [if_pos c3]
    simp only [List.cons_append, List.append_assoc, List.length_cons, List.length_append,
      beBytes_length]
    rw [unpack_str16 (beBytes 2 s.length) s r p (beBytes_length 2 _)
      (beNat_beBytes 2 _ (by omega))]
    all_goals try simp only [Except.ok.injEq, Prod.mk.injEq, ByteStream.mk.injEq, true_and,
      and_true]
    all_goals omega
  rw [if_neg c3]
  rw [if_pos h]
  simp only [List.cons_append, List.append_assoc, List.length_cons, List.length_append,
    beBytes_length]
  rw [unpack_str32 (beBytes 4 s.length) s r p (beBytes_length 4 _)
    (beNat_beBytes 4 _ (by norm_num at h ⊢; omega))]
  all_goals try simp only [Except.ok.injEq, Prod.mk.injEq, ByteStream.mk.injEq, true_and,
    and_true]
  all_goals omega

theorem unpack_encodeBin (s r : List Nat) (p : Nat) (h : s.length < 2 ^ 32) :
    unpack ⟨encodeBin s ++ r, p⟩ = .ok (.bin s, ⟨r, p + (encodeBin s).length⟩) := by
  rw [encodeBin, binPrefix]
  by_cases c1 : s.length ≤ 0xff
  · rw [if_pos c1]
    simp only [List.cons_append, List.append_assoc, List.nil_append, List.length_cons,
      List.length_append, List.length_nil]
    rw [unpack_bin8 s r p c1]
    all_goals try simp only [Except.ok.injEq, Prod.mk.injEq, ByteStream.mk.injEq, true_and,
      and_true]
    all_goals omega
  rw [if_neg c1]
  by_cases c2 : s.length ≤ 0xffff
  · rw [if_pos c2]
    simp only [List.cons_append, List.append_assoc, List.length_cons, List.length_append,
      beBytes_length]
    rw [unpack_bin16 (beBytes 2 s.length) s r p (beBytes_length 2 _)
      (beNat_beBytes 2 _ (by omega))]
    all_goals try simp only [Except.ok.injEq, Prod.mk.injEq, ByteStream.mk.injEq, true_and,
      and_true]
    all_goals omega
  rw [if_neg c2]
  rw [if_pos h]
  simp only [List.cons_append, List.append_assoc, List.length_cons, List.length_append,
    beBytes_length]
  rw [unpack_bin32 (beBytes 4 s.length) s r p (beBytes_length 4 _)
    (beNat_beBytes 4 _ (by norm_num at h ⊢; omega))]
  all_goals try simp only [Except.ok.injEq, Prod.mk.injEq, ByteStream.mk.injEq, true_and,
    and_true]
  all_goals omega

theorem unpack_encodePack (v : PackVal) (r : List Nat) (p : Nat) (h : WFPack v) :
    unpack ⟨encodePack v ++ r, p⟩ = .ok (packToM v, ⟨r, p + (encodePack v).length⟩) := by
  cases v with
  | pint i => exact unpack_encodeInt i r p h.1 h.2
  | pstr s => exact unpack_encodeStr s r p h
  | pbin bs => exact unpack_encodeBin bs r p h

theorem skip_encodePack (v : PackVal) (r : List Nat) (p : Nat) (h : WFPack v) :
    skip ⟨encodePack v ++ r, p⟩ = .ok ⟨r, p + (encodePack v).length⟩ := by
  rw [skip, unpack_encodePack v r p h, ebind_ok]

theorem read_map_header_enc (n : Nat) (r : List Nat) (p : Nat) (h : n < 2 ^ 32) :
    read_map_header ⟨mapHeaderBytes n ++ r, p⟩ =
      .ok (n, ⟨r, p + (mapHeaderBytes n).length⟩) := by
  rw [mapHeaderBytes]
  by_cases c1 : n ≤ 15
  · rw [if_pos c1]
    simp only [List.cons_append, List.nil_append, List.length_cons, List.length_nil]
    rw [read_map_header, readByte_cons, ebind_ok]
    dsimp only
    rw [if_pos (show 0x80 ≤ 0x80 + n ∧ 0x80 + n ≤ 0x8f by omega)]
    all_goals try simp only [Except.ok.injEq, Prod.mk.injEq, ByteStream.mk.injEq, true_and,
      and_true]
    all_goals omega
  rw [if_neg c1]
  by_cases c2 : n ≤ 0xffff
  · rw [if_pos c2]
    simp only [List.cons_append, List.length_cons, List.length_append, beBytes_length]
    rw [read_map_header, readByte_cons, ebind_ok]
    dsimp only
    norm_num
    rw [readN_exact (beBytes 2 n) r (p + 1) 2 (beBytes_length 2 n), ebind_ok]
    dsimp only
    rw [beNat_beBytes 2 n (by omega)]
    all_goals try simp only [Except.ok.injEq, Prod.mk.injEq, ByteStream.mk.injEq, true_and,
      and_true]
    all_goals omega
  rw [if_neg c2]
  simp only [List.cons_append, List.length_cons, List.length_append, beBytes_length]
  rw [read_map_header, readByte_cons, ebind_ok]
  dsimp only
  norm_num
  rw [readN_exact (beBytes 4 n) r (p + 1) 4 (beBytes_length 4 n), ebind_ok]
  dsimp only
  rw [beNat_beBytes 4 n (by omega)]
  all_goals try simp only [Except.ok.injEq, Prod.mk.injEq, ByteStream.mk.injEq, true_and,
    and_true]
  all_goals omega

theorem read_array_header_enc (n : Nat) (r : List Nat) (p : Nat) (h : n < 2 ^ 32) :
    read_array_header ⟨arrayHeaderBytes n ++ r, p⟩ =
      .ok (n, ⟨r, p + (arrayHeaderBytes n).length⟩) := by
  rw [arrayHeaderBytes]
  by_cases c1 : n ≤ 15
  · rw [if_pos c1]
    simp only [List.cons_append, List.nil_append, List.length_cons, List.length_nil]
    rw [read_array_header, readByte_cons, ebind_ok]
    dsimp only
    rw [if_pos (show 0x90 ≤ 0x90 + n ∧ 0x90 + n ≤ 0x9f by omega)]
    all_goals try simp only [Except.ok.injEq, Prod.mk.injEq, ByteStream.mk.injEq, true_and,
      and_true]
    all_goals omega
  rw [if_neg c1]
  by_cases c2 : n ≤ 0xffff
  · rw [if_pos c2]
    simp only [List.cons_append, List.length_cons, List.length_append, beBytes_length]
    rw [read_array_header, readByte_cons, ebind_ok]
    dsimp only
    norm_num
    rw [readN_exact (beBytes 2 n) r (p + 1) 2 (beBytes_length 2 n), ebind_ok]
    dsimp only
    rw [beNat_beBytes 2 n (by omega)]
    all_goals try simp only [Except.ok.injEq, Prod.mk.injEq, ByteStream.mk.injEq, true_and,
      and_true]
    all_goals omega
  rw [if_neg c2]
  simp only [List.cons_append, List.length_cons, List.length_append, beBytes_length]
  rw [read_array_header, readByte_cons, ebind_ok]
  dsimp only
  norm_num
  rw [readN_exact (beBytes 4 n) r (p + 1) 4 (beBytes_length 4 n), ebind_ok]
  dsimp only
  rw [beNat_beBytes 4 n (by omega)]
  all_goals try simp only [Except.ok.injEq, Prod.mk.injEq, ByteStream.mk.injEq, true_and,
    and_true]
  all_goals omega

theorem binHeader_binPrefix (cn bs r : List Nat) (p : Nat) (h : bs.length < 2 ^ 32) :
    binHeader cn ⟨binPrefix bs ++ (bs ++ r), p⟩ =
      .ok (bs.length, ⟨bs ++ r, p + (binPrefix bs).length⟩) := by
  rw [binPrefix]
  by_cases c1 : bs.length ≤ 0xff
  · rw [if_pos c1]
    simp only [List.cons_append, List.nil_append, List.length_cons, List.length_nil]
    rw [binHeader]
    rw [show ((0xc4 : Nat) :: bs.length :: (bs ++ r)) = [0xc4] ++ (bs.length :: (bs ++ r))
      by simp, read_bytes_exact [0xc4] (bs.length :: (bs ++ r)) p 1 rfl]
    norm_num
    rw [show (bs.length :: (bs ++ r) : List Nat) = [bs.length] ++ (bs ++ r) by simp,
      read_bytes_exact [bs.length] (bs ++ r) (p + 1) 1 rfl]
  rw [if_neg c1]
  by_cases c2 : bs.length ≤ 0xffff
  · rw [if_pos c2]
    simp only [List.cons_append, List.length_cons, List.length_append, beBytes_length]
    rw [binHeader]
    rw [show ((0xc5 : Nat) :: (beBytes 2 bs.length ++ (bs ++ r))) =
      [0xc5] ++ (beBytes 2 bs.length ++ (bs ++ r)) by simp,
      read_bytes_exact [0xc5] (beBytes 2 bs.length ++ (bs ++ r)) p 1 rfl]
    norm_num
    rw [read_bytes_exact (beBytes 2 bs.length) (bs ++ r) (p + 1) 2 (beBytes_length 2 _)]
    rw [if_pos (beBytes_length 2 bs.length)]
    rw [beNat_beBytes 2 bs.length (by omega)]
    all_goals try simp only [Except.ok.injEq, Prod.mk.injEq, ByteStream.mk.injEq, true_and,
      and_true]
    all_goals omega
  rw [if_neg c2]
  rw [if_pos h]
  simp only [List.cons_append, List.length_cons, List.length_append, beBytes_length]
  rw [binHeader]
  rw [show ((0xc6 : Nat) :: (beBytes 4 bs.length ++ (bs ++ r))) =
    [0xc6] ++ (beBytes 4 bs.length ++ (bs ++ r)) by simp,
    read_bytes_exact [0xc6] (beBytes 4 bs.length ++ (bs ++ r)) p 1 rfl]
  norm_num
  rw [read_bytes_exact (beBytes 4 bs.length) (bs ++ r) (p + 1) 4 (beBytes_length 4 _)]
  rw [if_pos (beBytes_length 4 bs.length)]
  rw [beNat_beBytes 4 bs.length (by omega)]
  all_goals try simp only [Except.ok.injEq, Prod.mk.injEq, ByteStream.mk.injEq, true_and,
    and_true]
  all_goals omega

theorem drainFuel_eq (f : Nat) : ∀ (remaining : Nat) (st : ByteStream), remaining ≤ f →
    drainFuel f remaining st = ⟨st.rem.drop remaining, st.pos + min remaining st.rem.length⟩ := by
  induction f with
  | zero =>
    intro remaining st h
    have : remaining = 0 := by omega
    subst this
    simp [drainFuel]
  | succ v ih =>
    intro remaining st h
    rw [drainFuel]
    by_cases hz : remaining = 0
    · subst hz
      simp
    rw [if_neg hz]
    have hc : 1 ≤ min DRAIN_CHUNK remaining := by
      simp only [DRAIN_CHUNK]
      omega
    rw [ih (remaining - min DRAIN_CHUNK remaining) _ (by omega)]
    simp only [read_bytes, List.drop_drop, List.length_drop, ByteStream.mk.injEq]
    constructor
    · congr 1
      omega
    · have := List.length_drop (min DRAIN_CHUNK remaining) st.rem
      omega

theorem drain_eq (remaining : Nat) (st : ByteStream) :
    drain remaining st = ⟨st.rem.drop remaining, st.pos + min remaining st.rem.length⟩ :=
  drainFuel_eq remaining remaining st le_rfl

theorem drain_append (bs r : List Nat) (p : Nat) :
    drain bs.length ⟨bs ++ r, p⟩ = ⟨r, p + bs.length⟩ := by
  rw [drain_eq]
  simp [List.drop_left]
  all_goals omega

/-! ### How `build` processes an encoded container -/

theorem asBin_bin (bs : List Nat) : asBin (.bin bs) = .ok bs := rfl

theorem asInt_int (i : Int) : asInt (.int i) = .ok i := rfl

theorem read_array_header_fix2 (r : List Nat) (p : Nat) :
    read_array_header ⟨0x92 :: r, p⟩ = .ok (2, ⟨r, p + 1⟩) := by
  rw [read_array_header, readByte_cons, ebind_ok]
  norm_num

theorem encodeDataCol_length (dc : DataCol) :
    (encodeDataCol dc).length = colHdrLen dc + dc.blob.length := by
  simp [encodeDataCol, colHdrLen]
  omega

theorem checkSize_passes (cn ts : List Nat) (blobSize : Nat) (count : Int)
    (h : ∀ e, lookupType ts = some e → (blobSize : Int) = (e.1 : Int) * count) :
    checkSize cn ts blobSize count = .ok () := by
  rw [checkSize]
  cases hk : lookupType ts with
  | none => rfl
  | some e =>
    dsimp only
    rw [if_neg (not_ne_iff.mpr (h e hk))]

theorem colStep_enc (dc : DataCol) (r : List Nat) (p : Nat) (h : WFCol dc) :
    colStep ⟨encodeDataCol dc ++ r, p⟩ =
      .ok (⟨dc.name, dc.type_str, elemOf dc.type_str, dc.count, p + colHdrLen dc,
        dc.blob.length⟩, ⟨r, p + (encodeDataCol dc).length⟩) := by
  obtain ⟨hname, hts, hcnt, hblob, hsz⟩ := h
  rw [colStep]
  rw [show encodeDataCol dc ++ r = encodeStr dc.name ++ (0x92 :: (encodeStr dc.type_str ++
    (0x92 :: (encodeInt dc.count ++ (binPrefix dc.blob ++ (dc.blob ++ r)))))) by
    simp [encodeDataCol]]
  rw [unpack_encodeStr dc.name _ p hname, ebind_ok]
  dsimp only
  rw [asBin_bin, ebind_ok]
  rw [read_array_header_fix2, ebind_ok]
  dsimp only
  rw [unpack_encodeStr dc.type_str _ _ hts, ebind_ok]
  dsimp only
  rw [asBin_bin, ebind_ok]
  rw [read_array_header_fix2, ebind_ok]
  dsimp only
  rw [unpack_encodeInt dc.count _ _ hcnt.1 hcnt.2, ebind_ok]
  dsimp only
  rw [asInt_int, ebind_ok]
  rw [binHeader_binPrefix dc.name dc.blob r _ hblob, ebind_ok]
  dsimp only
  rw [checkSize_passes dc.name dc.type_str dc.blob.length dc.count (sizeOk_forall hsz), ebind_ok]
  rw [drain_append]
  rw [encodeDataCol_length]
  simp only [Except.ok.injEq, Prod.mk.injEq, ColumnInfo.mk.injEq, ByteStream.mk.injEq,
    elemOf, colHdrLen, true_and, and_true]
  all_goals omega

theorem colLoop_enc (cols : List DataCol) : ∀ (acc : List ColumnInfo) (r : List Nat) (p : Nat),
    (∀ dc ∈ cols, WFCol dc) →
    colLoop cols.length ⟨(cols.map encodeDataCol).flatten ++ r, p⟩ acc =
      .ok (acc ++ colsOf p cols, ⟨r, p + ((cols.map encodeDataCol).flatten).length⟩) := by
  induction cols with
  | nil =>
    intro acc r p _
    simp [colLoop, colsOf]
  | cons dc rest ih =>
    intro acc r p h
    simp only [List.length_cons, List.map_cons, List.flatten_cons, List.append_assoc]
    rw [colLoop]
    rw [colStep_enc dc _ p (h dc (List.mem_cons_self dc rest)), ebind_ok]
    dsimp only
    rw [ih _ r _ (fun d hd => h d (List.mem_cons_of_mem dc hd))]
    simp only [Except.ok.injEq, Prod.mk.injEq, ByteStream.mk.injEq, List.append_assoc,
      List.singleton_append, List.length_append, true_and, colsOf]
    constructor
    · rw [encodeDataCol_length]
      simp [Nat.add_assoc]
    · omega

theorem isBin_bin (x y : List Nat) : MValue.isBin (.bin x) y = (x == y) := rfl

theorem skipPairs_enc (ids : List (PackVal × PackVal)) : ∀ (r : List Nat) (p : Nat),
    (∀ kv ∈ ids, WFPack kv.1 ∧ WFPack kv.2) →
    skipPairs ids.length
      ⟨(ids.map fun kv => encodePack kv.1 ++ encodePack kv.2).flatten ++ r, p⟩ =
      .ok ⟨r, p + ((ids.map fun kv => encodePack kv.1 ++ encodePack kv.2).flatten).length⟩ := by
  induction ids with
  | nil =>
    intro r p _
    simp [skipPairs]
  | cons kv rest ih =>
    intro r p h
    simp only [List.length_cons, List.map_cons, List.flatten_cons, List.append_assoc]
    rw [skipPairs]
    rw [skip_encodePack kv.1 _ p (h kv (List.mem_cons_self kv rest)).1, ebind_ok]
    rw [skip_encodePack kv.2 _ _ (h kv (List.mem_cons_self kv rest)).2, ebind_ok]
    rw [ih r _ (fun d hd => h d (List.mem_cons_of_mem kv hd))]
    simp only [Except.ok.injEq, ByteStream.mk.injEq, List.length_append, true_and]
    omega

theorem buildLoop_enc (entries : List Entry) : ∀ (r : List Nat) (p : Nat) (nr : Int) (ni : Nat)
    (cs : List ColumnInfo), (∀ e ∈ entries, WFEntry e) →
    buildLoop entries.length ⟨(entries.map encodeEntry).flatten ++ r, p⟩ nr ni cs =
      .ok (entriesFold entries p (nr, ni, cs)) := by
  induction entries with
  | nil =>
    intro r p nr ni cs _
    simp [buildLoop, entriesFold]
  | cons e rest ih =>
    intro r p nr ni cs h
    have he : WFEntry e := h e (List.mem_cons_self e rest)
    have hrest : ∀ x ∈ rest, WFEntry x := fun x hx => h x (List.mem_cons_of_mem e hx)
    simp only [List.length_cons, List.map_cons, List.flatten_cons, List.append_assoc]
    rw [buildLoop]
    cases e with
    | nrowsE v =>
      simp only [encodeEntry, List.append_assoc]
      rw [unpack_encodeStr keyNrows _ p (by decide), ebind_ok]
      dsimp only
      rw [if_pos (show MValue.isBin (.bin keyNrows) keyNrows = true by decide)]
      rw [unpack_encodeInt v _ _ he.1 he.2, ebind_ok]
      dsimp only
      rw [asInt_int, ebind_ok]
      rw [ih r _ v ni cs hrest]
      simp only [entriesFold, encodeEntry, List.length_append, Nat.add_assoc]
    | identifiersE ids =>
      simp only [encodeEntry, List.append_assoc]
      rw [unpack_encodeStr keyIdentifiers _ p (by decide), ebind_ok]
      dsimp only
      rw [if_neg (show ¬ (MValue.isBin (.bin keyIdentifiers) keyNrows = true) by decide)]
      rw [if_pos (show MValue.isBin (.bin keyIdentifiers) keyIdentifiers = true by decide)]
      rw [read_map_header_enc ids.length _ _ he.1, ebind_ok]
      dsimp only
      rw [skipPairs_enc ids _ _ he.2, ebind_ok]
      rw [ih r _ nr ids.length cs hrest]
      simp only [entriesFold, encodeEntry, List.length_append, Nat.add_assoc]
    | dataE cols =>
      simp only [encodeEntry, List.append_assoc]
      rw [unpack_encodeStr keyData _ p (by decide), ebind_ok]
      dsimp only
      rw [if_neg (show ¬ (MValue.isBin (.bin keyData) keyNrows = true) by decide)]
      rw [if_neg (show ¬ (MValue.isBin (.bin keyData) keyIdentifiers = true) by decide)]
      rw [if_pos (show MValue.isBin (.bin keyData) keyData = true by decide)]
      rw [read_map_header_enc cols.length _ _ he.1, ebind_ok]
      dsimp only
      rw [colLoop_enc cols cs _ _ he.2, ebind_ok]
      dsimp only
      rw [ih r _ nr ni _ hrest]
      simp only [entriesFold, encodeEntry, List.length_append, Nat.add_assoc]
    | otherE k v =>
      obtain ⟨hk, hkn, hki, hkd, hv⟩ := he
      simp only [encodeEntry, List.append_assoc]
      rw [unpack_encodeStr k _ p hk, ebind_ok]
      dsimp only
      rw [if_neg (show ¬ (MValue.isBin (.bin k) keyNrows = true) by
        simp only [isBin_bin, beq_iff_eq]
        exact hkn)]
      rw [if_neg (show ¬ (MValue.isBin (.bin k) keyIdentifiers = true) by
        simp only [isBin_bin, beq_iff_eq]
        exact hki)]
      rw [if_neg (show ¬ (MValue.isBin (.bin k) keyData = true) by
        simp only [isBin_bin, beq_iff_eq]
        exact hkd)]
      rw [skip_encodePack v _ _ hv, ebind_ok]
      rw [ih r _ nr ni cs hrest]
      simp only [entriesFold, encodeEntry, List.length_append, Nat.add_assoc]

/-- The central decode-of-encode theorem: on any well-formed encoded
container, `build` succeeds and produces exactly the expected index. -/
theorem build_enc (path : String) (entries : List Entry)
    (h : ∀ e ∈ entries, WFEntry e) (hn : entries.length < 2 ^ 32) :
    ReflIndex.build path (encodeContainer entries) = .ok (expectedIndex path entries) := by
  rw [ReflIndex.build]
  rw [show (⟨encodeContainer entries, 0⟩ : ByteStream)
    = ⟨arrayHeaderBytes 3 ++ (encodeBin magicBytes ++ (encodeInt 1 ++
      (mapHeaderBytes entries.length ++ (entries.map encodeEntry).flatten))), 0⟩ by
    simp [encodeContainer, arrayHeaderBytes]]
  rw [read_array_header_enc 3 _ 0 (by norm_num), ebind_ok]
  dsimp only
  norm_num
  rw [unpack_encodeBin magicBytes _ _ (by decide), ebind_ok]
  dsimp only
  rw [if_neg (show ¬ ((MValue.bin magicBytes).isBin magicBytes = false) by decide)]
  rw [unpack_encodeInt 1 _ _ (by norm_num) (by norm_num), ebind_ok]
  dsimp only
  rw [read_map_header_enc entries.length _ _ hn, ebind_ok]
  dsimp only
  rw [show (entries.map encodeEntry).flatten
    = (entries.map encodeEntry).flatten ++ [] from (List.append_nil _).symm]
  rw [buildLoop_enc entries [] _ 0 0 [] h, ebind_ok]
  rw [show (arrayHeaderBytes 3).length + (encodeBin magicBytes).length +
    (encodeInt 1).length + (mapHeaderBytes entries.length).length
    = entriesStart entries.length by
    simp [entriesStart, arrayHeaderBytes]
    all_goals omega]
  rw [expectedIndex]

/-! ### Invariants of a successful build on arbitrary bytes -/

theorem ebind_pure {α β : Type} (a : α) (f : α → Except Err β) :
    (pure a : Except Err α) >>= f = f a := rfl

theorem ethrow_bind {α β : Type} (e : Err) (f : α → Except Err β) :
    (throw e : Except Err α) >>= f = .error e := rfl

theorem ebind_eq_ok {α β : Type} {x : Except Err α} {f : α → Except Err β} {b : β} :
    x >>= f = .ok b ↔ ∃ a, x = .ok a ∧ f a = .ok b := by
  cases x with
  | ok a => simp [ebind_ok]
  | error e => simp [ebind_err]

theorem ebind_eq_err {α β : Type} {x : Except Err α} {f : α → Except Err β} {e : Err} :
    x >>= f = .error e ↔ x = .error e ∨ ∃ a, x = .ok a ∧ f a = .error e := by
  cases x with
  | ok a => simp [ebind_ok]
  | error e2 => simp [ebind_err]

/-- The per-column facts a successful build guarantees: the recorded element
size is the catalog size (0 for unknown tags), and for known tags the blob
size equals element size times count. -/
def BuiltCol (c : ColumnInfo) : Prop :=
  c.elem_size = elemOf c.type_str ∧
    ∀ e, lookupType c.type_str = some e → (c.blob_size : Int) = (e.1 : Int) * c.count

theorem checkSize_eq_ok {cn ts : List Nat} {bs : Nat} {cnt : Int}
    (h : checkSize cn ts bs cnt = .ok ()) :
    ∀ e, lookupType ts = some e → (bs : Int) = (e.1 : Int) * cnt := by
  intro e he
  rw [checkSize, he] at h
  dsimp only at h
  by_cases hne : (bs : Int) ≠ (e.1 : Int) * cnt
  · rw [if_pos hne] at h
    exact absurd h (by simp)
  · exact not_not.mp hne

theorem colStep_inv {st st' : ByteStream} {ci : ColumnInfo}
    (h : colStep st = .ok (ci, st')) : BuiltCol ci := by
  rw [colStep] at h
  obtain ⟨⟨v1, st1⟩, _, h⟩ := ebind_eq_ok.mp h
  dsimp only at h
  obtain ⟨nm, _, h⟩ := ebind_eq_ok.mp h
  obtain ⟨⟨l1, st2⟩, _, h⟩ := ebind_eq_ok.mp h
  dsimp only at h
  obtain ⟨⟨v2, st3⟩, _, h⟩ := ebind_eq_ok.mp h
  dsimp only at h
  obtain ⟨ts, _, h⟩ := ebind_eq_ok.mp h
  obtain ⟨⟨l2, st4⟩, _, h⟩ := ebind_eq_ok.mp h
  dsimp only at h
  obtain ⟨⟨v3, st5⟩, _, h⟩ := ebind_eq_ok.mp h
  dsimp only at h
  obtain ⟨cnt, _, h⟩ := ebind_eq_ok.mp h
  obtain ⟨⟨bsz, st6⟩, _, h⟩ := ebind_eq_ok.mp h
  dsimp only at h
  obtain ⟨u, hchk, h⟩ := ebind_eq_ok.mp h
  obtain ⟨hci, _⟩ := by
    have := h
    simp only [Except.ok.injEq, Prod.mk.injEq] at this
    exact this
  subst hci
  constructor
  · simp only [elemOf]
  · intro e he
    simp only at he ⊢
    exact checkSize_eq_ok hchk e he

theorem colLoop_inv {P : ColumnInfo → Prop} :
    ∀ (n : Nat) (st st' : ByteStream) (acc cols : List ColumnInfo),
    colLoop n st acc = .ok (cols, st') → (∀ c ∈ acc, P c) →
    (∀ {s s2 c}, colStep s = .ok (c, s2) → P c) →
    ∀ c ∈ cols, P c := by
  intro n
  induction n with
  | zero =>
    intro st st' acc cols h hacc _
    rw [colLoop] at h
    simp only [Except.ok.injEq, Prod.mk.injEq] at h
    obtain ⟨h1, _⟩ := h
    subst h1
    exact hacc
  | succ m ih =>
    intro st st' acc cols h hacc hstep
    rw [colLoop] at h
    obtain ⟨⟨ci, st1⟩, hstep1, h⟩ := ebind_eq_ok.mp h
    dsimp only at h
    refine ih st1 st' (acc ++ [ci]) cols h ?_ hstep
    intro c hc
    rcases List.mem_append.mp hc with hc | hc
    · exact hacc c hc
    · rw [List.mem_singleton.mp hc]
      exact hstep hstep1

theorem buildLoop_inv {P : ColumnInfo → Prop} :
    ∀ (n : Nat) (st : ByteStream) (nr : Int) (ni : Nat) (cs : List ColumnInfo)
    (res : Int × Nat × List ColumnInfo),
    buildLoop n st nr ni cs = .ok res → (∀ c ∈ cs, P c) →
    (∀ {s s2 c}, colStep s = .ok (c, s2) → P c) →
    ∀ c ∈ res.2.2, P c := by
  intro n
  induction n with
  | zero =>
    intro st nr ni cs res h hcs _
    rw [buildLoop] at h
    simp only [Except.ok.injEq] at h
    subst h
    exact hcs
  | succ m ih =>
    intro st nr ni cs res h hcs hstep
    rw [buildLoop] at h
    obtain ⟨⟨keyV, st1⟩, _, h⟩ := ebind_eq_ok.mp h
    dsimp only at h
    by_cases h1 : keyV.isBin keyNrows = true
    · rw [if_pos h1] at h
      obtain ⟨⟨v, st2⟩, _, h⟩ := ebind_eq_ok.mp h
      dsimp only at h
      obtain ⟨nr2, _, h⟩ := ebind_eq_ok.mp h
      exact ih st2 nr2 ni cs res h hcs hstep
    rw [if_neg h1] at h
    by_cases h2 : keyV.isBin keyIdentifiers = true
    · rw [if_pos h2] at h
      obtain ⟨⟨m2, st2⟩, _, h⟩ := ebind_eq_ok.mp h
      dsimp only at h
      obtain ⟨st3, _, h⟩ := ebind_eq_ok.mp h
      exact ih st3 nr m2 cs res h hcs hstep
    rw [if_neg h2] at h
    by_cases h3 : keyV.isBin keyData = true
    · rw [if_pos h3] at h
      obtain ⟨⟨nc, st2⟩, _, h⟩ := ebind_eq_ok.mp h
      dsimp only at h
      obtain ⟨⟨cols2, st3⟩, hcl, h⟩ := ebind_eq_ok.mp h
      dsimp only at h
      refine ih st3 nr ni cols2 res h ?_ hstep
      intro c hc
      exact colLoop_inv nc st2 st3 cs cols2 hcl hcs hstep c hc
    rw [if_neg h3] at h
    obtain ⟨st2, _, h⟩ := ebind_eq_ok.mp h
    exact ih st2 nr ni cs res h hcs hstep

/-- Any column of a successfully built index satisfies the build invariants. -/
theorem build_inv {path : String} {data : List Nat} {idx : ReflIndex}
    (h : ReflIndex.build path data = .ok idx) : ∀ c ∈ idx.columns, BuiltCol c := by
  rw [ReflIndex.build] at h
  obtain ⟨⟨outerLen, st1⟩, _, h⟩ := ebind_eq_ok.mp h
  dsimp only at h
  by_cases h1 : outerLen ≠ 3
  · rw [if_pos h1, ethrow_bind] at h
    exact absurd h (by simp)
  rw [if_neg h1] at h
  rw [ebind_pure] at h
  obtain ⟨⟨magic, st2⟩, _, h⟩ := ebind_eq_ok.mp h
  dsimp only at h
  by_cases h2 : ¬ magic.isBin magicBytes = true
  · rw [if_pos h2, ethrow_bind] at h
    exact absurd h (by simp)
  rw [if_neg h2] at h
  rw [ebind_pure] at h
  obtain ⟨⟨ver, st3⟩, _, h⟩ := ebind_eq_ok.mp h
  dsimp only at h
  obtain ⟨⟨mainLen, st4⟩, _, h⟩ := ebind_eq_ok.mp h
  dsimp only at h
  obtain ⟨⟨nr, ni, cols⟩, hloop, h⟩ := ebind_eq_ok.mp h
  dsimp only at h
  simp only [Except.ok.injEq] at h
  subst h
  intro c hc
  exact buildLoop_inv mainLen st4 0 0 [] (nr, ni, cols) hloop (by simp)
    (fun hs => colStep_inv hs) c hc

/-! ### Save / load round trip -/

theorem mem_insertSorted (x a : List Nat) (l : List (List Nat)) :
    a ∈ insertSorted x l ↔ a = x ∨ a ∈ l := by
  induction l with
  | nil => simp [insertSorted]
  | cons y ys ih =>
    rw [insertSorted]
    by_cases hc : lexLeB x y = true
    · simp [hc]
    · simp only [Bool.not_eq_true] at hc
      simp only [hc, Bool.false_eq_true, if_false, List.mem_cons, ih]
      tauto

theorem mem_sortStrs (a : List Nat) (l : List (List Nat)) :
    a ∈ sortStrs l ↔ a ∈ l := by
  induction l with
  | nil => simp [sortStrs]
  | cons x xs ih =>
    rw [sortStrs, mem_insertSorted]
    simp [ih]

theorem strIndex_get (t : List Nat) (l : List (List Nat)) (h : t ∈ l) :
    l.get? (strIndex t l) = some t := by
  induction l with
  | nil => cases h
  | cons x xs ih =>
    rw [strIndex]
    by_cases hx : x = t
    · rw [if_pos hx, hx]
      rfl
    · rw [if_neg hx]
      have ht : t ∈ xs := by
        rcases List.mem_cons.mp h with h1 | h1
        · exact absurd h1.symm hx
        · exact h1
      simpa using ih ht

theorem pyGet_nat (l : List (List Nat)) (k : Nat) (x : List Nat)
    (h : l.get? k = some x) : pyGet l (k : Int) = .ok x := by
  have h0 : ¬ ((k : Int) < 0) := by omega
  have h1 : (0 : Int) ≤ (k : Int) := by omega
  simp only [pyGet, h0, if_false, h1, if_true, Int.toNat_natCast, h]

theorem loadColumns_save (tss : List (List Nat)) :
    ∀ (cols : List ColumnInfo), (∀ c ∈ cols, c.type_str ∈ tss) →
    loadColumns tss (cols.map fun c =>
      ⟨c.name, (strIndex c.type_str tss : Int), c.elem_size, c.count,
        c.blob_offset, c.blob_size⟩) = .ok cols := by
  intro cols
  induction cols with
  | nil =>
    intro _
    rfl
  | cons c rest ih =>
    intro h
    simp only [List.map_cons]
    rw [loadColumns]
    rw [pyGet_nat tss (strIndex c.type_str tss) c.type_str
      (strIndex_get c.type_str tss (h c (List.mem_cons_self c rest))), ebind_ok]
    rw [ih (fun d hd => h d (List.mem_cons_of_mem c hd)), ebind_ok]

/-- The loaded index is field-for-field the saved one, whatever the
`created_at` timestamp was. -/
theorem load_save (idx : ReflIndex) (created_at : String) :
    ReflIndex.load (idx.save created_at) = .ok idx := by
  obtain ⟨path, fs, nr, ni, cols⟩ := idx
  rw [ReflIndex.load, ReflIndex.save]
  dsimp only
  rw [if_neg (by simp)]
  rw [ebind_pure]
  rw [loadColumns_save (sortedDedup (cols.map (·.type_str))) cols ?_, ebind_ok]
  intro c hc
  rw [sortedDedup, mem_sortStrs, List.mem_dedup]
  exact List.mem_map_of_mem (·.type_str) hc

/-! ### Reader lemmas -/

theorem columnMap_mem : ∀ (cols : List ColumnInfo) (n : List Nat) (c : ColumnInfo),
    columnMap cols n = some c → c ∈ cols := by
  have key : ∀ (cols : List ColumnInfo) (n : List Nat) (acc : Option ColumnInfo) (c : ColumnInfo),
      cols.foldl (fun a x => if x.name = n then some x else a) acc = some c →
      c ∈ cols ∨ acc = some c := by
    intro cols
    induction cols with
    | nil =>
      intro n acc c h
      exact Or.inr h
    | cons x xs ih =>
      intro n acc c h
      rw [List.foldl_cons] at h
      rcases ih n _ c h with h1 | h1
      · exact Or.inl (List.mem_cons_of_mem x h1)
      · by_cases hx : x.name = n
        · rw [if_pos hx] at h1
          exact Or.inl (List.mem_cons.mpr (Or.inl (by injection h1 with h2; rw [h2])))
        · rw [if_neg hx] at h1
          exact Or.inr h1
  intro cols n c h
  rcases key cols n none c h with h1 | h1
  · exact h1
  · cases h1

theorem columnMap_name : ∀ (cols : List ColumnInfo) (n : List Nat) (c : ColumnInfo),
    columnMap cols n = some c → c.name = n := by
  have key : ∀ (cols : List ColumnInfo) (n : List Nat) (acc : Option ColumnInfo) (c : ColumnInfo),
      (∀ a, acc = some a → a.name = n) →
      cols.foldl (fun a x => if x.name = n then some x else a) acc = some c →
      c.name = n := by
    intro cols
    induction cols with
    | nil =>
      intro n acc c hacc h
      exact hacc c h
    | cons x xs ih =>
      intro n acc c hacc h
      rw [List.foldl_cons] at h
      refine ih n _ c ?_ h
      intro a ha
      by_cases hx : x.name = n
      · rw [if_pos hx] at ha
        injection ha with h2
        rw [← h2]
        exact hx
      · rw [if_neg hx] at ha
        exact hacc a ha
  intro cols n c h
  exact key cols n none c (by intro a ha; cases ha) h

/-- The `dict` update law: appending a column makes it shadow any earlier
column of the same name. -/
theorem columnMap_append (cols : List ColumnInfo) (c : ColumnInfo) (n : List Nat) :
    columnMap (cols ++ [c]) n = if c.name = n then some c else columnMap cols n := by
  rw [columnMap, List.foldl_append]
  rfl

theorem get_column_some {idx : ReflIndex} {name : List Nat} {col : ColumnInfo}
    (h : idx.getCol name = some col) : get_column idx name = .ok col := by
  rw [get_column, h]

theorem get_column_none {idx : ReflIndex} {name : List Nat}
    (h : idx.getCol name = none) :
    get_column idx name = .error (.notFound name idx.column_names) := by
  rw [get_column, h]

theorem validate_range_neg {col : ColumnInfo} {start stop : Int}
    (h : start < 0 ∨ stop < 0) :
    validate_range col start stop = .error (.rangeErr start stop) := by
  rw [validate_range, if_pos h]

theorem validate_range_inverted {col : ColumnInfo} {start stop : Int}
    (h0 : 0 ≤ start) (h1 : 0 ≤ stop) (h : start > stop) :
    validate_range col start stop = .error (.rangeErr start stop) := by
  rw [validate_range, if_neg (by omega), if_pos h]

theorem validate_range_oor {col : ColumnInfo} {start stop : Int}
    (h0 : 0 ≤ start) (h1 : start ≤ stop) (h : stop > col.count) :
    validate_range col start stop = .error (.outOfRange col.name stop col.count) := by
  rw [validate_range, if_neg (by omega), if_neg (by omega), if_pos h]

theorem validate_range_ok {col : ColumnInfo} {start stop : Int}
    (h0 : 0 ≤ start) (h1 : start ≤ stop) (h2 : stop ≤ col.count) :
    validate_range col start stop = .ok () := by
  rw [validate_range, if_neg (by omega), if_neg (by omega), if_neg (by omega)]

/-- Closed form of a raw read over a valid range on an intact file region. -/
theorem read_raw_ok (r : ReflReader) (data name : List Nat) (col : ColumnInfo)
    (s t : Nat) (hf : r.file = some data) (hcol : r.index.getCol name = some col)
    (hst : s ≤ t) (htc : (t : Int) ≤ col.count)
    (hbound : col.blob_offset + t * col.elem_size ≤ data.length) :
    read_column_raw r name (s : Int) (some (t : Int)) =
      .ok ((data.drop (col.blob_offset + s * col.elem_size)).take
        ((t - s) * col.elem_size)) := by
  rw [read_column_raw, get_column_some hcol, ebind_ok]
  dsimp only [Option.getD]
  rw [validate_range_ok (by omega) (by exact_mod_cast hst) htc, ebind_ok]
  by_cases hz : (t : Int) - (s : Int) = 0
  · have hts : t = s := by omega
    rw [if_pos hz]
    subst hts
    simp
  rw [if_neg hz]
  rw [openFile, hf, ebind_ok]
  have hoff : ((col.blob_offset : Int) + (s : Int) * (col.elem_size : Int)).toNat
      = col.blob_offset + s * col.elem_size := by
    rw [show (col.blob_offset : Int) + (s : Int) * (col.elem_size : Int)
      = ((col.blob_offset + s * col.elem_size : Nat) : Int) by push_cast; ring]
    exact Int.toNat_natCast _
  have hcnt : (((t : Int) - (s : Int)) * (col.elem_size : Int)).toNat
      = (t - s) * col.elem_size := by
    rw [show ((t : Int) - (s : Int)) * (col.elem_size : Int)
      = (((t - s) * col.elem_size : Nat) : Int) by push_cast [hst]; ring]
    exact Int.toNat_natCast _
  rw [fileRead, hoff, hcnt]
  have hlen : ((data.drop (col.blob_offset + s * col.elem_size)).take
      ((t - s) * col.elem_size)).length = (t - s) * col.elem_size := by
    rw [List.length_take, List.length_drop]
    have h1 : (t - s) * col.elem_size + s * col.elem_size ≤ t * col.elem_size := by
      rw [← Nat.add_mul]
      exact Nat.mul_le_mul_right _ (by omega)
    omega
  rw [if_neg (by
    rw [hlen]
    rw [show ((t : Int) - (s : Int)) * (col.elem_size : Int)
      = (((t - s) * col.elem_size : Nat) : Int) by push_cast [hst]; ring]
    exact fun hcon => hcon rfl)]
  rfl

/-! ### Auxiliary facts for the claims -/

theorem entriesFold_nrows (entries : List Entry) :
    ∀ (p : Nat) (nr : Int) (ni : Nat) (cs : List ColumnInfo),
    (∀ v, Entry.nrowsE v ∉ entries) → (entriesFold entries p (nr, ni, cs)).1 = nr := by
  induction entries with
  | nil =>
    intro p nr ni cs _
    rfl
  | cons e rest ih =>
    intro p nr ni cs h
    have hrest : ∀ v, Entry.nrowsE v ∉ rest :=
      fun v hv => h v (List.mem_cons_of_mem e hv)
    cases e with
    | nrowsE v => exact absurd (List.mem_cons_self _ rest) (h v)
    | identifiersE ids => exact ih _ nr ids.length _ hrest
    | dataE cols => exact ih _ nr ni _ hrest
    | otherE k v => exact ih _ nr ni cs hrest

theorem entriesFold_nids (entries : List Entry) :
    ∀ (p : Nat) (nr : Int) (ni : Nat) (cs : List ColumnInfo),
    (∀ ids, Entry.identifiersE ids ∉ entries) →
    (entriesFold entries p (nr, ni, cs)).2.1 = ni := by
  induction entries with
  | nil =>
    intro p nr ni cs _
    rfl
  | cons e rest ih =>
    intro p nr ni cs h
    have hrest : ∀ ids, Entry.identifiersE ids ∉ rest :=
      fun v hv => h v (List.mem_cons_of_mem e hv)
    cases e with
    | nrowsE v => exact ih _ v ni cs hrest
    | identifiersE ids => exact absurd (List.mem_cons_self _ rest) (h ids)
    | dataE cols => exact ih _ nr ni _ hrest
    | otherE k v => exact ih _ nr ni cs hrest

theorem colsOf_names (cols : List DataCol) : ∀ (p : Nat),
    (colsOf p cols).map (·.name) = cols.map (·.name) := by
  induction cols with
  | nil =>
    intro p
    rfl
  | cons dc rest ih =>
    intro p
    simp only [colsOf, List.map_cons, ih]

theorem loadColumns_all_ok (tss : List (List Nat)) :
    ∀ (es : List ColEntry), (∀ e ∈ es, ∃ ts, pyGet tss e.type_idx = .ok ts) →
    ∃ cols, loadColumns tss es = .ok cols := by
  intro es
  induction es with
  | nil =>
    intro _
    exact ⟨[], rfl⟩
  | cons e rest ih =>
    intro h
    obtain ⟨ts, hts⟩ := h e (List.mem_cons_self e rest)
    obtain ⟨cols, hcols⟩ := ih (fun d hd => h d (List.mem_cons_of_mem e hd))
    refine ⟨⟨e.name, ts, e.elem_size, e.count, e.blob_offset, e.blob_size⟩ :: cols, ?_⟩
    rw [loadColumns, hts, ebind_ok, hcols, ebind_ok]

/-! ### Concrete container fixtures (mirroring the repository's synthetic
test files) -/

/-- Two well-typed columns: an "int" column with 3 rows and a "bool" column
with 2 rows. -/
def wCols : List DataCol :=
  [⟨s2b "flags", s2b "int", 3, [1, 0, 0, 0, 2, 0, 0, 0, 3, 0, 0, 0]⟩,
   ⟨s2b "is_strong", s2b "bool", 2, [1, 0]⟩]

/-- A container with one identifier, nrows = 3 and the two columns. -/
def wEntries : List Entry :=
  [.identifiersE [(.pint 0, .pstr (s2b "uuid-0000"))], .nrowsE 3, .dataE wCols]

/-- The encoded bytes of the well-typed container. -/
def wFile : List Nat := encodeContainer wEntries

/-- The index `build` produces for it. -/
def wIdx : ReflIndex := expectedIndex "test.refl" wEntries

/-- A container holding one column of unrecognised type tag "weird" with a
3-byte payload. -/
def uCols : List DataCol := [⟨s2b "odd", s2b "weird", 3, [7, 8, 9]⟩]

/-- Entries of the unknown-tag container. -/
def uEntries : List Entry := [.nrowsE 3, .dataE uCols]

/-- The encoded bytes of the unknown-tag container. -/
def uFile : List Nat := encodeContainer uEntries

/-- The index `build` produces for it. -/
def uIdx : ReflIndex := expectedIndex "test.refl" uEntries

/-- A container whose data map holds two columns with the same name
"flags". -/
def dupCols : List DataCol :=
  [⟨s2b "flags", s2b "int", 1, [1, 0, 0, 0]⟩,
   ⟨s2b "flags", s2b "bool", 4, [1, 0, 1, 0]⟩]

/-- Entries of the duplicate-name container. -/
def dupEntries : List Entry := [.dataE dupCols]

/-- The encoded bytes of the duplicate-name container. -/
def dupFile : List Nat := encodeContainer dupEntries

/-- The index `build` produces for it. -/
def dupIdx : ReflIndex := expectedIndex "test.refl" dupEntries

/-- A sidecar document with no version field. -/
def docNoVersion : IdxDoc :=
  ⟨none, "test.refl", 63, "ts", 3, 0, 1, [s2b "int"], [⟨s2b "flags", 0, 4, 3, 84, 12⟩]⟩

/-- A well-formed version-1 sidecar document with one column. -/
def docV1 : IdxDoc :=
  ⟨some 1, "test.refl", 63, "ts", 3, 0, 1, [s2b "int"], [⟨s2b "flags", 0, 4, 3, 84, 12⟩]⟩

/-- The same document with an unsupported version 2. -/
def docV2 : IdxDoc :=
  ⟨some 2, "test.refl", 63, "ts", 3, 0, 1, [s2b "int"], [⟨s2b "flags", 0, 4, 3, 84, 12⟩]⟩

/-! ## The claims -/

/-- C1: for every valid container file, loading the saved form of a
successfully built index yields a SidecarIndex equal field-for-field to the
built one — same source path, file size, row count, identifier count, and
the same ordered column sequence with identical name, type tag, element
size, row count, blob offset and blob size (structure equality covers all
fields); the `created_at` timestamp written by save is arbitrary here and
not part of the loaded value. -/
theorem claim_C1_roundtrip (path : String) (data : List Nat) (idx : ReflIndex)
    (created_at : String) (h : ReflIndex.build path data = .ok idx) :
    ReflIndex.load (idx.save created_at) = .ok idx :=
  load_save idx created_at

theorem claim_C1_roundtrip_witness :
    ReflIndex.build "test.refl" wFile = .ok wIdx ∧
    ReflIndex.load (wIdx.save "2026-10-12T00:00:00+00:00") = .ok wIdx :=
  ⟨by decide,
   claim_C1_roundtrip "test.refl" wFile wIdx "2026-10-12T00:00:00+00:00" (by decide)⟩

/-- C6 counterexample: a container whose data map holds two columns both
named "flags" is not rejected — build succeeds and the resulting index
carries both same-named columns, refuting the claim that name collisions
are a build error. -/
theorem claim_C6_counterexample :
    ReflIndex.build "test.refl" dupFile = .ok dupIdx ∧
    dupIdx.columns.map (·.name) = [s2b "flags", s2b "flags"] :=
  ⟨by decide, by decide⟩

/-- C6 amended: build does not enforce column-name uniqueness.  Any
well-formed container builds successfully regardless of duplicated names
(first conjunct, with no uniqueness hypothesis anywhere); every column is
kept in encounter order with its name (second conjunct); and the derived
name-lookup map resolves a name to the last column carrying it, as a
Python dict comprehension does (third conjunct). -/
theorem claim_C6_amended :
    (∀ (path : String) (entries : List Entry), (∀ e ∈ entries, WFEntry e) →
      entries.length < 2 ^ 32 →
      ReflIndex.build path (encodeContainer entries) = .ok (expectedIndex path entries)) ∧
    (∀ (p : Nat) (cols : List DataCol),
      (colsOf p cols).map (·.name) = cols.map (·.name)) ∧
    (∀ (cols : List ColumnInfo) (c : ColumnInfo) (n : List Nat),
      columnMap (cols ++ [c]) n = if c.name = n then some c else columnMap cols n) :=
  ⟨build_enc, fun p cols => colsOf_names cols p, columnMap_append⟩

theorem claim_C6_amended_witness :
    ReflIndex.build "test.refl" (encodeContainer dupEntries) =
      .ok (expectedIndex "test.refl" dupEntries) ∧
    (colsOf 0 dupCols).map (·.name) = dupCols.map (·.name) :=
  ⟨claim_C6_amended.1 "test.refl" dupEntries (by decide) (by decide),
   claim_C6_amended.2.1 0 dupCols⟩

/-- C8: load rejects any document whose version field differs from 1 — an
absent field included — with the unsupported-version error rather than a
best-effort index, and a version-1 document whose column entries all
resolve in the type-string table loads successfully. -/
theorem claim_C8_version_gate (doc : IdxDoc) :
    (doc.version ≠ some 1 →
      ReflIndex.load doc = .error (.unsupportedVersion doc.version)) ∧
    (doc.version = some 1 →
      (∀ e ∈ doc.columns, ∃ ts, pyGet doc.type_strs e.type_idx = .ok ts) →
      ∃ idx, ReflIndex.load doc = .ok idx) := by
  constructor
  · intro hv
    rw [ReflIndex.load, if_pos hv, ethrow_bind]
  · intro hv hcols
    rw [ReflIndex.load, if_neg (by rw [hv]; exact fun hne => hne rfl), ebind_pure]
    obtain ⟨cols, hcols2⟩ := loadColumns_all_ok doc.type_strs doc.columns hcols
    rw [hcols2, ebind_ok]
    exact ⟨_, rfl⟩

theorem claim_C8_version_gate_witness :
    ReflIndex.load docNoVersion = .error (.unsupportedVersion none) ∧
    ReflIndex.load docV2 = .error (.unsupportedVersion (some 2)) ∧
    ∃ idx, ReflIndex.load docV1 = .ok idx :=
  ⟨(claim_C8_version_gate docNoVersion).1 (by decide),
   (claim_C8_version_gate docV2).1 (by decide),
   (claim_C8_version_gate docV1).2 rfl (by
     intro e he
     rw [show docV1.columns = [⟨s2b "flags", 0, 4, 3, 84, 12⟩] from rfl,
       List.mem_singleton] at he
     subst he
     exact ⟨s2b "int", by decide⟩)⟩

/-- C10: a container whose main map lacks the "nrows" key (or the
"identifiers" key) still builds: the resulting index records row count 0
(resp. identifier count 0) while the recognised keys that are present —
in particular "data" — are processed as usual. -/
theorem claim_C10_missing_keys (path : String) (entries : List Entry)
    (hwf : ∀ e ∈ entries, WFEntry e) (hn : entries.length < 2 ^ 32) :
    ((∀ v, Entry.nrowsE v ∉ entries) →
      ∃ idx, ReflIndex.build path (encodeContainer entries) = .ok idx ∧
        idx.nrows = 0 ∧ idx.columns = (expectedIndex path entries).columns ∧
        idx.num_identifiers = (expectedIndex path entries).num_identifiers) ∧
    ((∀ ids, Entry.identifiersE ids ∉ entries) →
      ∃ idx, ReflIndex.build path (encodeContainer entries) = .ok idx ∧
        idx.num_identifiers = 0 ∧ idx.columns = (expectedIndex path entries).columns ∧
        idx.nrows = (expectedIndex path entries).nrows) := by
  constructor
  · intro hno
    exact ⟨expectedIndex path entries, build_enc path entries hwf hn,
      entriesFold_nrows entries _ 0 0 [] hno, rfl, rfl⟩
  · intro hno
    exact ⟨expectedIndex path entries, build_enc path entries hwf hn,
      entriesFold_nids entries _ 0 0 [] hno, rfl, rfl⟩

theorem claim_C10_missing_keys_witness :
    (∃ idx, ReflIndex.build "test.refl" (encodeContainer dupEntries) = .ok idx ∧
      idx.nrows = 0 ∧ idx.columns = (expectedIndex "test.refl" dupEntries).columns ∧
      idx.num_identifiers = (expectedIndex "test.refl" dupEntries).num_identifiers) ∧
    (∃ idx, ReflIndex.build "test.refl" (encodeContainer dupEntries) = .ok idx ∧
      idx.num_identifiers = 0 ∧
      idx.columns = (expectedIndex "test.refl" dupEntries).columns ∧
      idx.nrows = (expectedIndex "test.refl" dupEntries).nrows) :=
  ⟨(claim_C10_missing_keys "test.refl" dupEntries (by decide) (by decide)).1
     (by intro v hv; simp [dupEntries] at hv),
   (claim_C10_missing_keys "test.refl" dupEntries (by decide) (by decide)).2
     (by intro ids hv; simp [dupEntries] at hv)⟩

/-! ### Facts about the bin-marker decode, for C2 -/

theorem binHeader_c4 (cn : List Nat) (b0 : Nat) (r : List Nat) (p : Nat) :
    binHeader cn ⟨0xc4 :: b0 :: r, p⟩ = .ok (b0, ⟨r, p + 2⟩) := by
  rw [binHeader]
  rw [show read_bytes 1 (⟨0xc4 :: b0 :: r, p⟩ : ByteStream) = ([0xc4], ⟨b0 :: r, p + 1⟩) from by
    rw [show ((0xc4 : Nat) :: b0 :: r) = [0xc4] ++ (b0 :: r) by simp]
    exact read_bytes_exact [0xc4] (b0 :: r) p 1 rfl]
  dsimp only
  norm_num
  rw [show read_bytes 1 (⟨b0 :: r, p + 1⟩ : ByteStream) = ([b0], ⟨r, p + 1 + 1⟩) from by
    rw [show (b0 :: r) = [b0] ++ r by simp]
    exact read_bytes_exact [b0] r (p + 1) 1 rfl]

theorem binHeader_c5 (cn : List Nat) (b0 b1 : Nat) (r : List Nat) (p : Nat) :
    binHeader cn ⟨0xc5 :: b0 :: b1 :: r, p⟩ = .ok (256 * b0 + b1, ⟨r, p + 3⟩) := by
  rw [binHeader]
  rw [show read_bytes 1 (⟨0xc5 :: b0 :: b1 :: r, p⟩ : ByteStream)
      = ([0xc5], ⟨b0 :: b1 :: r, p + 1⟩) from by
    rw [show ((0xc5 : Nat) :: b0 :: b1 :: r) = [0xc5] ++ (b0 :: b1 :: r) by simp]
    exact read_bytes_exact [0xc5] (b0 :: b1 :: r) p 1 rfl]
  dsimp only
  norm_num
  rw [show read_bytes 2 (⟨b0 :: b1 :: r, p + 1⟩ : ByteStream)
      = ([b0, b1], ⟨r, p + 1 + 2⟩) from by
    rw [show (b0 :: b1 :: r) = [b0, b1] ++ r by simp]
    exact read_bytes_exact [b0, b1] r (p + 1) 2 rfl]
  dsimp only
  norm_num
  simp only [beNat, List.foldl_cons, List.foldl_nil, Except.ok.injEq, Prod.mk.injEq,
    ByteStream.mk.injEq, true_and, and_true]
  omega

theorem binHeader_c6 (cn : List Nat) (b0 b1 b2 b3 : Nat) (r : List Nat) (p : Nat) :
    binHeader cn ⟨0xc6 :: b0 :: b1 :: b2 :: b3 :: r, p⟩ =
      .ok (b0 * 16777216 + b1 * 65536 + b2 * 256 + b3, ⟨r, p + 5⟩) := by
  rw [binHeader]
  rw [show read_bytes 1 (⟨0xc6 :: b0 :: b1 :: b2 :: b3 :: r, p⟩ : ByteStream)
      = ([0xc6], ⟨b0 :: b1 :: b2 :: b3 :: r, p + 1⟩) from by
    rw [show ((0xc6 : Nat) :: b0 :: b1 :: b2 :: b3 :: r)
      = [0xc6] ++ (b0 :: b1 :: b2 :: b3 :: r) by simp]
    exact read_bytes_exact [0xc6] (b0 :: b1 :: b2 :: b3 :: r) p 1 rfl]
  dsimp only
  norm_num
  rw [show read_bytes 4 (⟨b0 :: b1 :: b2 :: b3 :: r, p + 1⟩ : ByteStream)
      = ([b0, b1, b2, b3], ⟨r, p + 1 + 4⟩) from by
    rw [show (b0 :: b1 :: b2 :: b3 :: r) = [b0, b1, b2, b3] ++ r by simp]
    exact read_bytes_exact [b0, b1, b2, b3] r (p + 1) 4 rfl]
  dsimp only
  norm_num
  simp only [beNat, List.foldl_cons, List.foldl_nil, Except.ok.injEq, Prod.mk.injEq,
    ByteStream.mk.injEq, true_and, and_true]
  omega

theorem binHeader_bad (cn : List Nat) (m : Nat) (r : List Nat) (p : Nat)
    (h4 : m ≠ 0xc4) (h5 : m ≠ 0xc5) (h6 : m ≠ 0xc6) :
    binHeader cn ⟨m :: r, p⟩ = .error (.badMarker cn m) := by
  rw [binHeader]
  rw [show read_bytes 1 (⟨m :: r, p⟩ : ByteStream) = ([m], ⟨r, p + 1⟩) from by
    rw [show (m :: r) = [m] ++ r by simp]
    exact read_bytes_exact [m] r p 1 rfl]
  dsimp only
  rw [if_neg h4, if_neg h5, if_neg h6]

/-- One successful column step factors through `colPrefix`: the bin header
is decoded on exactly the stream the prefix run left off at, and the emitted
ColumnInfo records as `blob_offset` the position the bin-header decode
stopped at (`tell()` right after the marker and length bytes), as
`blob_size` the decoded length; the step resumes by draining the blob from
there. -/
theorem colStep_records {st st2 : ByteStream} {ci : ColumnInfo}
    (h : colStep st = .ok (ci, st2)) :
    ∃ ste st1, colPrefix st = .ok ((ci.name, ci.type_str, ci.count), ste) ∧
      binHeader ci.name ste = .ok (ci.blob_size, st1) ∧
      ci.blob_offset = st1.pos ∧ st2 = drain ci.blob_size st1 := by
  rw [colStep] at h
  obtain ⟨⟨v1, sta⟩, h1, h⟩ := ebind_eq_ok.mp h
  dsimp only at h
  obtain ⟨nm, h2, h⟩ := ebind_eq_ok.mp h
  obtain ⟨⟨l1, stb⟩, h3, h⟩ := ebind_eq_ok.mp h
  dsimp only at h
  obtain ⟨⟨v2, stc⟩, h4, h⟩ := ebind_eq_ok.mp h
  dsimp only at h
  obtain ⟨ts, h5, h⟩ := ebind_eq_ok.mp h
  obtain ⟨⟨l2, std1⟩, h6, h⟩ := ebind_eq_ok.mp h
  dsimp only at h
  obtain ⟨⟨v3, ste⟩, h7, h⟩ := ebind_eq_ok.mp h
  dsimp only at h
  obtain ⟨cnt, h8, h⟩ := ebind_eq_ok.mp h
  obtain ⟨⟨bsz, stf⟩, hbin, h⟩ := ebind_eq_ok.mp h
  dsimp only at h
  obtain ⟨u, h9, h⟩ := ebind_eq_ok.mp h
  simp only [Except.ok.injEq, Prod.mk.injEq] at h
  obtain ⟨hci, hst2⟩ := h
  subst hci
  refine ⟨ste, stf, ?_, hbin, rfl, hst2.symm⟩
  rw [colPrefix, h1, ebind_ok]
  dsimp only
  rw [h2, ebind_ok, h3, ebind_ok]
  dsimp only
  rw [h4, ebind_ok]
  dsimp only
  rw [h5, ebind_ok, h6, ebind_ok]
  dsimp only
  rw [h7, ebind_ok]
  dsimp only
  rw [h8, ebind_ok]

/-- C2: the payload length prefix is decoded from exactly one marker byte;
exactly the three values 0xC4, 0xC5, 0xC6 are accepted, selecting an 8-bit,
a 16-bit big-endian, or a 32-bit big-endian unsigned length field (the
decode consumes 1 + 1, 1 + 2, 1 + 4 bytes and leaves the stream position
just past the length bytes, as the resulting positions show); any other
marker byte fails with the structural error naming the column; and every
successful column step factors through its prefix run, decodes the bin
header on exactly the stream state that prefix run reached, and records in
the built ColumnInfo that decode's result as the blob size and that
decode's final position — the `tell()` just past the marker and length
bytes — as the blob offset, resuming by draining the blob from there. -/
theorem claim_C2_bin_marker :
    (∀ (cn : List Nat) (b0 : Nat) (r : List Nat) (p : Nat),
      binHeader cn ⟨0xc4 :: b0 :: r, p⟩ = .ok (b0, ⟨r, p + 2⟩)) ∧
    (∀ (cn : List Nat) (b0 b1 : Nat) (r : List Nat) (p : Nat),
      binHeader cn ⟨0xc5 :: b0 :: b1 :: r, p⟩ = .ok (256 * b0 + b1, ⟨r, p + 3⟩)) ∧
    (∀ (cn : List Nat) (b0 b1 b2 b3 : Nat) (r : List Nat) (p : Nat),
      binHeader cn ⟨0xc6 :: b0 :: b1 :: b2 :: b3 :: r, p⟩ =
        .ok (b0 * 16777216 + b1 * 65536 + b2 * 256 + b3, ⟨r, p + 5⟩)) ∧
    (∀ (cn : List Nat) (m : Nat) (r : List Nat) (p : Nat),
      m ≠ 0xc4 → m ≠ 0xc5 → m ≠ 0xc6 →
      binHeader cn ⟨m :: r, p⟩ = .error (.badMarker cn m)) ∧
    (∀ (st st2 : ByteStream) (ci : ColumnInfo), colStep st = .ok (ci, st2) →
      ∃ ste st1, colPrefix st = .ok ((ci.name, ci.type_str, ci.count), ste) ∧
        binHeader ci.name ste = .ok (ci.blob_size, st1) ∧
        ci.blob_offset = st1.pos ∧ st2 = drain ci.blob_size st1) :=
  ⟨binHeader_c4, binHeader_c5, binHeader_c6, binHeader_bad,
   fun _ _ _ h => colStep_records h⟩

theorem claim_C2_bin_marker_witness :
    binHeader (s2b "flags") ⟨[0xc4, 3, 9, 9, 9], 10⟩ = .ok (3, ⟨[9, 9, 9], 12⟩) ∧
    binHeader (s2b "flags") ⟨[0xc5, 1, 2, 9], 0⟩ = .ok (258, ⟨[9], 3⟩) ∧
    binHeader (s2b "flags") ⟨[0xc6, 0, 0, 1, 2, 9], 0⟩ = .ok (258, ⟨[9], 5⟩) ∧
    binHeader (s2b "flags") ⟨[0xa5, 1], 0⟩ = .error (.badMarker (s2b "flags") 0xa5) ∧
    (∃ ste st1, colPrefix ⟨wFile.drop 69, 69⟩ = .ok ((s2b "flags", s2b "int", 3), ste) ∧
      binHeader (s2b "flags") ste = .ok (12, st1) ∧
      (84 : Nat) = st1.pos ∧ (⟨wFile.drop 96, 96⟩ : ByteStream) = drain 12 st1) :=
  ⟨claim_C2_bin_marker.1 (s2b "flags") 3 [9, 9, 9] 10,
   claim_C2_bin_marker.2.1 (s2b "flags") 1 2 [9] 0,
   claim_C2_bin_marker.2.2.1 (s2b "flags") 0 0 1 2 [9] 0,
   claim_C2_bin_marker.2.2.2.1 (s2b "flags") 0xa5 [1] 0 (by decide) (by decide) (by decide),
   by
    have h := claim_C2_bin_marker.2.2.2.2 ⟨wFile.drop 69, 69⟩
      ⟨wFile.drop 96, 96⟩ ⟨s2b "flags", s2b "int", 4, 3, 84, 12⟩ (by decide)
    exact h⟩

/-! ### Catalog positivity, for C3 -/

theorem lookupType_elem_pos {ts : List Nat} {e : Nat × String × String}
    (h : lookupType ts = some e) : 0 < e.1 := by
  rw [lookupType] at h
  obtain ⟨x, hx, hfe⟩ := Option.map_eq_some'.mp h
  have hmem := List.mem_of_find?_eq_some hx
  have hall : ∀ x ∈ DIALS_TYPES, 0 < x.2.1 := by decide
  rw [← hfe]
  exact hall x hmem

/-- C3 counterexample: on the container holding one column of unrecognised
type tag "weird" with the 3-byte payload stored at offset 60, the raw read
of the full row range returns no bytes at all instead of the payload,
because the recorded element size of an unknown-tag column is 0. -/
theorem claim_C3_counterexample :
    ReflIndex.build "test.refl" uFile = .ok uIdx ∧
    uIdx.getCol (s2b "odd") = some ⟨s2b "odd", s2b "weird", 0, 3, 60, 3⟩ ∧
    (uFile.drop 60).take 3 = [7, 8, 9] ∧
    read_column_raw ⟨uIdx, some uFile⟩ (s2b "odd") 0 (some 3) = .ok [] ∧
    ([] : List Nat) ≠ [7, 8, 9] :=
  ⟨by decide, by decide, by decide, by decide, by decide⟩

/-- C3 corrected: for every column of a built index that is reachable by
name lookup, has a type tag known to the catalog, and whose recorded blob
lies within the file, the raw read of the full row range reproduces exactly
the `blob_size` payload bytes stored at `blob_offset`.  (For unknown tags
the element size is recorded as 0 and the full-range raw read returns empty
instead — see the counterexample.) -/
theorem claim_C3_full_read (path : String) (data : List Nat) (idx : ReflIndex)
    (name : List Nat) (col : ColumnInfo)
    (hb : ReflIndex.build path data = .ok idx)
    (hcol : idx.getCol name = some col)
    (hknown : isDialsType col.type_str = true)
    (hintact : col.blob_offset + col.blob_size ≤ data.length) :
    read_column_raw ⟨idx, some data⟩ name 0 (some col.count) =
      .ok ((data.drop col.blob_offset).take col.blob_size) := by
  have hmem := columnMap_mem idx.columns name col hcol
  have hBC := build_inv hb col hmem
  obtain ⟨e, he⟩ : ∃ e, lookupType col.type_str = some e := by
    rw [isDialsType] at hknown
    cases hl : lookupType col.type_str with
    | none => rw [hl] at hknown; cases hknown
    | some e => exact ⟨e, rfl⟩
  have hsz := hBC.2 e he
  have hes : col.elem_size = e.1 := by rw [hBC.1, elemOf, he]
  have hpos : 0 < e.1 := lookupType_elem_pos he
  have hcnt0 : 0 ≤ col.count := by
    by_contra hneg
    push_neg at hneg
    have h1 : (e.1 : Int) * col.count < 0 :=
      mul_neg_of_pos_of_neg (by exact_mod_cast hpos) hneg
    rw [← hsz] at h1
    exact absurd h1 (by omega)
  obtain ⟨cnt, hc⟩ := Int.eq_ofNat_of_zero_le hcnt0
  have hbsz : col.blob_size = cnt * e.1 := by
    have : (col.blob_size : Int) = (cnt : Int) * (e.1 : Int) := by
      rw [hsz, hc]
      ring
    exact_mod_cast this
  have hread := read_raw_ok ⟨idx, some data⟩ data name col 0 cnt rfl hcol
    (Nat.zero_le cnt) (by rw [hc]) (by rw [hes, ← hbsz]; omega)
  rw [hc]
  rw [show ((0 : Nat) : Int) = (0 : Int) from rfl] at hread
  rw [hread]
  congr 1
  rw [Nat.zero_mul, Nat.add_zero, Nat.sub_zero, hes, ← hbsz]

theorem claim_C3_full_read_witness :
    ReflIndex.build "test.refl" wFile = .ok wIdx ∧
    wIdx.getCol (s2b "flags") = some ⟨s2b "flags", s2b "int", 4, 3, 84, 12⟩ ∧
    read_column_raw ⟨wIdx, some wFile⟩ (s2b "flags") 0 (some 3) =
      .ok ((wFile.drop 84).take 12) :=
  ⟨by decide, by decide, by
    have h := claim_C3_full_read "test.refl" wFile wIdx (s2b "flags")
      ⟨s2b "flags", s2b "int", 4, 3, 84, 12⟩ (by decide) (by decide) (by decide) (by decide)
    exact h⟩

theorem numpy_dtype_known {ts : List Nat} {e : Nat × String × String}
    (he : lookupType ts = some e) : numpy_dtype ts = .ok e.2.1 := by
  unfold numpy_dtype
  rw [he]

theorem numpy_dtype_unknown {ts : List Nat} (he : lookupType ts = none) :
    numpy_dtype ts = .error (.unknownType ts) := by
  unfold numpy_dtype
  rw [he]

/-- C9 counterexample: a zero-row `read_column` on a known column whose type
tag is not in the catalog does not return an empty array — it fails with the
unknown-type error from the catalog lookup (still without opening the file:
the reader here has no file at all). -/
theorem claim_C9_counterexample :
    uIdx.getCol (s2b "odd") = some ⟨s2b "odd", s2b "weird", 0, 3, 60, 3⟩ ∧
    read_column ⟨uIdx, none⟩ (s2b "odd") 0 (some 0) =
      .error (.unknownType (s2b "weird")) :=
  ⟨by decide, by decide⟩

/-- C9 corrected: a zero-row read returns before the container file is
opened, so it succeeds even with the file missing (`file = none` here):
`read_column_raw` returns empty bytes for any column; `read_column` returns
the empty array of the column's dtype and shape when the type tag is known;
for an unknown tag `read_column` fails with the catalog's unknown-type
error — but still without touching the file. -/
theorem claim_C9_zero_row (idx : ReflIndex) (name : List Nat) (col : ColumnInfo)
    (s : Int) (hcol : idx.getCol name = some col) (h0 : 0 ≤ s) (hsc : s ≤ col.count) :
    read_column_raw ⟨idx, none⟩ name s (some s) = .ok [] ∧
    (∀ e, lookupType col.type_str = some e →
      ∃ shape, numpy_shape col.type_str 0 = .ok shape ∧
        read_column ⟨idx, none⟩ name s (some s) = .ok ⟨e.2.1, shape, []⟩) ∧
    (lookupType col.type_str = none →
      read_column ⟨idx, none⟩ name s (some s) = .error (.unknownType col.type_str)) := by
  refine ⟨?_, ?_, ?_⟩
  · rw [read_column_raw, get_column_some hcol, ebind_ok]
    dsimp only [Option.getD]
    rw [validate_range_ok h0 le_rfl hsc, ebind_ok]
    rw [if_pos (sub_self s)]
  · intro e he
    rw [read_column, get_column_some hcol, ebind_ok]
    dsimp only [Option.getD]
    rw [validate_range_ok h0 le_rfl hsc, ebind_ok]
    rw [if_pos (sub_self s)]
    rw [numpy_dtype_known he, ebind_ok]
    cases hm : ((MULTI_ELEMENT_COUNTS.find? (fun e => e.1 == col.type_str)).map
        (fun x => (x.2 : Int))) with
    | none =>
      have hsh : numpy_shape col.type_str 0 = .ok [0] := by
        unfold numpy_shape
        rw [he, hm]
      exact ⟨[0], hsh, by rw [hsh, ebind_ok]⟩
    | some sub =>
      have hsh : numpy_shape col.type_str 0 = .ok [0, sub] := by
        unfold numpy_shape
        rw [he, hm]
      exact ⟨[0, sub], hsh, by rw [hsh, ebind_ok]⟩
  · intro he
    rw [read_column, get_column_some hcol, ebind_ok]
    dsimp only [Option.getD]
    rw [validate_range_ok h0 le_rfl hsc, ebind_ok]
    rw [if_pos (sub_self s)]
    rw [numpy_dtype_unknown he, ebind_err]

theorem claim_C9_zero_row_witness :
    wIdx.getCol (s2b "flags") = some ⟨s2b "flags", s2b "int", 4, 3, 84, 12⟩ ∧
    read_column_raw ⟨wIdx, none⟩ (s2b "flags") 2 (some 2) = .ok [] ∧
    (∃ shape, numpy_shape (s2b "int") 0 = .ok shape ∧
      read_column ⟨wIdx, none⟩ (s2b "flags") 2 (some 2) = .ok ⟨"<i4", shape, []⟩) :=
  ⟨by decide,
   (claim_C9_zero_row wIdx (s2b "flags") ⟨s2b "flags", s2b "int", 4, 3, 84, 12⟩ 2
     (by decide) (by decide) (by decide)).1,
   (claim_C9_zero_row wIdx (s2b "flags") ⟨s2b "flags", s2b "int", 4, 3, 84, 12⟩ 2
     (by decide) (by decide) (by decide)).2.1 (4, "<i4", "32-bit signed int") (by decide)⟩

/-! ### Slice arithmetic, for C7 -/

theorem slice_concat (d : List Nat) (o m k : Nat) :
    (d.drop o).take m ++ (d.drop (o + m)).take k = (d.drop o).take (m + k) := by
  rw [List.take_add]
  congr 1
  rw [List.drop_drop]
  all_goals try congr 1
  all_goals omega

/-- C7: raw reads over adjacent row ranges concatenate — for
`0 ≤ a ≤ b ≤ c ≤ row_count` on a column whose recorded blob region is backed
by the file, the reads all succeed and
`read_column_raw(a,b) ++ read_column_raw(b,c) = read_column_raw(a,c)`;
in particular every empty range `[s, s)` reads as empty bytes. -/
theorem claim_C7_concat (r : ReflReader) (data name : List Nat) (col : ColumnInfo)
    (a b c : Int) (hf : r.file = some data) (hcol : r.index.getCol name = some col)
    (hbound : col.blob_offset + col.count.toNat * col.elem_size ≤ data.length)
    (h0 : 0 ≤ a) (hab : a ≤ b) (hbc : b ≤ c) (hcc : c ≤ col.count) :
    (∃ u v, read_column_raw r name a (some b) = .ok u ∧
      read_column_raw r name b (some c) = .ok v ∧
      read_column_raw r name a (some c) = .ok (u ++ v)) ∧
    (∀ s : Int, 0 ≤ s → s ≤ col.count → read_column_raw r name s (some s) = .ok []) := by
  have hboundx : ∀ x : Nat, (x : Int) ≤ col.count →
      col.blob_offset + x * col.elem_size ≤ data.length := by
    intro x hx
    have hxc : x ≤ col.count.toNat := by omega
    have := Nat.mul_le_mul_right col.elem_size hxc
    omega
  constructor
  · obtain ⟨a', rfl⟩ := Int.eq_ofNat_of_zero_le h0
    obtain ⟨b', rfl⟩ := Int.eq_ofNat_of_zero_le (le_trans h0 hab)
    obtain ⟨c', rfl⟩ := Int.eq_ofNat_of_zero_le (le_trans (le_trans h0 hab) hbc)
    have hab' : a' ≤ b' := by exact_mod_cast hab
    have hbc' : b' ≤ c' := by exact_mod_cast hbc
    have hbcount : (b' : Int) ≤ col.count := le_trans hbc hcc
    refine ⟨_, _,
      read_raw_ok r data name col a' b' hf hcol hab' hbcount (hboundx b' hbcount),
      read_raw_ok r data name col b' c' hf hcol hbc' hcc (hboundx c' hcc), ?_⟩
    have h3 := read_raw_ok r data name col a' c' hf hcol (le_trans hab' hbc') hcc
      (hboundx c' hcc)
    have e1 : col.blob_offset + a' * col.elem_size + (b' - a') * col.elem_size
        = col.blob_offset + b' * col.elem_size := by
      have : a' * col.elem_size + (b' - a') * col.elem_size = b' * col.elem_size := by
        rw [← Nat.add_mul]
        congr 1
        omega
      omega
    have e2 : (b' - a') * col.elem_size + (c' - b') * col.elem_size
        = (c' - a') * col.elem_size := by
      rw [← Nat.add_mul]
      congr 1
      omega
    have hconcat := slice_concat data (col.blob_offset + a' * col.elem_size)
      ((b' - a') * col.elem_size) ((c' - b') * col.elem_size)
    rw [e1, e2] at hconcat
    rw [h3, ← hconcat]
  · intro s hs0 hsc
    obtain ⟨s', rfl⟩ := Int.eq_ofNat_of_zero_le hs0
    rw [read_raw_ok r data name col s' s' hf hcol le_rfl hsc (hboundx s' hsc)]
    simp

theorem claim_C7_concat_witness :
    (∃ u v, read_column_raw ⟨wIdx, some wFile⟩ (s2b "flags") 0 (some 1) = .ok u ∧
      read_column_raw ⟨wIdx, some wFile⟩ (s2b "flags") 1 (some 3) = .ok v ∧
      read_column_raw ⟨wIdx, some wFile⟩ (s2b "flags") 0 (some 3) = .ok (u ++ v)) ∧
    read_column_raw ⟨wIdx, some wFile⟩ (s2b "flags") 2 (some 2) = .ok [] :=
  ⟨(claim_C7_concat ⟨wIdx, some wFile⟩ wFile (s2b "flags")
      ⟨s2b "flags", s2b "int", 4, 3, 84, 12⟩ 0 1 3 rfl (by decide) (by decide)
      (by decide) (by decide) (by decide) (by decide)).1,
   (claim_C7_concat ⟨wIdx, some wFile⟩ wFile (s2b "flags")
      ⟨s2b "flags", s2b "int", 4, 3, 84, 12⟩ 0 1 3 rfl (by decide) (by decide)
      (by decide) (by decide) (by decide) (by decide)).2 2 (by decide) (by decide)⟩

/-! ### Size check characterisation, for C5 -/

theorem checkSize_mismatch (cn ts : List Nat) (bs : Nat) (cnt : Int)
    (e : Nat × String × String) (he : lookupType ts = some e)
    (hne : (bs : Int) ≠ (e.1 : Int) * cnt) :
    checkSize cn ts bs cnt = .error (.sizeMismatch cn bs ((e.1 : Int) * cnt)) := by
  rw [checkSize, he]
  dsimp only
  rw [if_pos hne]

theorem checkSize_err_char (cn ts : List Nat) (bs : Nat) (cnt : Int) (err : Err)
    (h : checkSize cn ts bs cnt = .error err) :
    ∃ e, lookupType ts = some e ∧ err = .sizeMismatch cn bs ((e.1 : Int) * cnt) ∧
      (bs : Int) ≠ (e.1 : Int) * cnt := by
  rw [checkSize] at h
  cases hk : lookupType ts with
  | none =>
    rw [hk] at h
    cases h
  | some e =>
    rw [hk] at h
    dsimp only at h
    by_cases hne : (bs : Int) ≠ (e.1 : Int) * cnt
    · rw [if_pos hne] at h
      injection h with h2
      exact ⟨e, rfl, h2.symm, hne⟩
    · rw [if_neg hne] at h
      cases h

/-- C5: the size check fails with the size-mismatch error (naming the
column, the actual size and the expected size) exactly when the type tag is
known to the catalog and the decoded payload length differs from
element_size * count — the first conjunct gives the failure for every such
mismatch, the second that every failure of the check is of this form; and
consequently (third conjunct) every column of a successfully built index
whose tag is known satisfies blob_size = element_size * row_count, with the
catalog element size recorded. -/
theorem claim_C5_size_check :
    (∀ (cn ts : List Nat) (bs : Nat) (cnt : Int) (e : Nat × String × String),
      lookupType ts = some e → (bs : Int) ≠ (e.1 : Int) * cnt →
      checkSize cn ts bs cnt = .error (.sizeMismatch cn bs ((e.1 : Int) * cnt))) ∧
    (∀ (cn ts : List Nat) (bs : Nat) (cnt : Int) (err : Err),
      checkSize cn ts bs cnt = .error err →
      ∃ e, lookupType ts = some e ∧ err = .sizeMismatch cn bs ((e.1 : Int) * cnt) ∧
        (bs : Int) ≠ (e.1 : Int) * cnt) ∧
    (∀ (path : String) (data : List Nat) (idx : ReflIndex),
      ReflIndex.build path data = .ok idx → ∀ c ∈ idx.columns,
      ∀ e, lookupType c.type_str = some e →
        (c.blob_size : Int) = (e.1 : Int) * c.count ∧ c.elem_size = e.1) := by
  refine ⟨checkSize_mismatch, checkSize_err_char, ?_⟩
  intro path data idx hb c hc e he
  have hBC := build_inv hb c hc
  exact ⟨hBC.2 e he, by rw [hBC.1, elemOf, he]⟩

theorem claim_C5_size_check_witness :
    checkSize (s2b "flags") (s2b "int") 5 1 =
      .error (.sizeMismatch (s2b "flags") 5 4) ∧
    (∃ e, lookupType (s2b "int") = some e ∧
      (Err.sizeMismatch (s2b "flags") 5 4 : Err) =
        .sizeMismatch (s2b "flags") 5 ((e.1 : Int) * 1) ∧
      (5 : Int) ≠ (e.1 : Int) * 1) ∧
    ((12 : Int) = ((4 : Nat) : Int) * (3 : Int) ∧ (4 : Nat) = 4) :=
  ⟨claim_C5_size_check.1 (s2b "flags") (s2b "int") 5 1 (4, "<i4", "32-bit signed int")
     (by decide) (by decide),
   claim_C5_size_check.2.1 (s2b "flags") (s2b "int") 5 1
     (.sizeMismatch (s2b "flags") 5 4) (by decide),
   by
    have h := (claim_C5_size_check.2.2 "test.refl" wFile wIdx (by decide))
      ⟨s2b "flags", s2b "int", 4, 3, 84, 12⟩ (by decide)
      (4, "<i4", "32-bit signed int") (by decide)
    exact h⟩

/-! ### Range validation across the read operations, for C4 -/

/-- The three boundary errors of the reader: range, out-of-range and
not-found.  Read errors of any other kind (missing file, short read, unknown
type tag) are not boundary errors. -/
def IsBoundaryErr : Err → Prop
  | .rangeErr _ _ => True
  | .outOfRange _ _ _ => True
  | .notFound _ _ => True
  | _ => False

theorem read_raw_nf {r : ReflReader} {name : List Nat}
    (h : r.index.getCol name = none) (start : Int) (stop? : Option Int) :
    read_column_raw r name start stop? = .error (.notFound name r.index.column_names) := by
  rw [read_column_raw, get_column_none h, ebind_err]

theorem read_col_nf {r : ReflReader} {name : List Nat}
    (h : r.index.getCol name = none) (start : Int) (stop? : Option Int) :
    read_column r name start stop? = .error (.notFound name r.index.column_names) := by
  rw [read_column, get_column_none h, ebind_err]

theorem read_raw_val_err {r : ReflReader} {name : List Nat} {col : ColumnInfo}
    {start stop : Int} {e : Err} (hcol : r.index.getCol name = some col)
    (hv : validate_range col start stop = .error e) :
    read_column_raw r name start (some stop) = .error e := by
  rw [read_column_raw, get_column_some hcol, ebind_ok]
  dsimp only [Option.getD]
  rw [hv, ebind_err]

theorem read_col_val_err {r : ReflReader} {name : List Nat} {col : ColumnInfo}
    {start stop : Int} {e : Err} (hcol : r.index.getCol name = some col)
    (hv : validate_range col start stop = .error e) :
    read_column r name start (some stop) = .error e := by
  rw [read_column, get_column_some hcol, ebind_ok]
  dsimp only [Option.getD]
  rw [hv, ebind_err]

theorem read_columns_head_err {r : ReflReader} {n : List Nat} {start : Int}
    {stop? : Option Int} {e : Err} (rest : List (List Nat))
    (h : read_column r n start stop? = .error e) :
    read_columns r (n :: rest) start stop? = .error e := by
  simp only [read_columns]
  rw [h, ebind_err]

theorem numpy_dtype_err {ts : List Nat} {e : Err}
    (h : numpy_dtype ts = .error e) : e = .unknownType ts := by
  unfold numpy_dtype at h
  cases hk : lookupType ts with
  | none =>
    rw [hk] at h
    injection h with h2
    exact h2.symm
  | some x =>
    rw [hk] at h
    cases h

theorem numpy_shape_err {ts : List Nat} {n : Int} {e : Err}
    (h : numpy_shape ts n = .error e) : e = .unknownType ts := by
  unfold numpy_shape at h
  split at h
  all_goals try split at h
  all_goals first
    | exact Except.noConfusion h
    | (injection h with h2; exact h2.symm)

theorem dtype_shape_err {ts : List Nat} {n : Int} {raw : List Nat} {e : Err}
    (h : (do
        let dtype ← numpy_dtype ts
        let shape ← numpy_shape ts n
        (.ok ⟨dtype, shape, raw⟩ : Except Err NpArray)) = .error e) :
    e = .unknownType ts := by
  rcases ebind_eq_err.mp h with hd | ⟨dt, hdt, h2⟩
  · exact numpy_dtype_err hd
  · rcases ebind_eq_err.mp h2 with hs | ⟨sh, hsh, h3⟩
    · exact numpy_shape_err hs
    · cases h3

theorem read_raw_valid_nb {r : ReflReader} {name : List Nat} {col : ColumnInfo}
    {start stop : Int} (hcol : r.index.getCol name = some col)
    (h0 : 0 ≤ start) (h1 : start ≤ stop) (h2 : stop ≤ col.count) :
    ∀ e, read_column_raw r name start (some stop) = .error e → ¬ IsBoundaryErr e := by
  intro e he
  rw [read_column_raw, get_column_some hcol, ebind_ok] at he
  dsimp only [Option.getD] at he
  rw [validate_range_ok h0 h1 h2, ebind_ok] at he
  by_cases hz : stop - start = 0
  · rw [if_pos hz] at he
    cases he
  · rw [if_neg hz] at he
    cases hf : r.file with
    | none =>
      rw [openFile, hf, ebind_err] at he
      injection he with h3
      rw [← h3]
      exact fun hcon => hcon
    | some d =>
      rw [openFile, hf, ebind_ok] at he
      split at he
      · rw [ethrow_bind] at he
        injection he with h3
        rw [← h3]
        exact fun hcon => hcon
      · rw [ebind_pure] at he
        cases he

theorem read_col_valid_nb {r : ReflReader} {name : List Nat} {col : ColumnInfo}
    {start stop : Int} (hcol : r.index.getCol name = some col)
    (h0 : 0 ≤ start) (h1 : start ≤ stop) (h2 : stop ≤ col.count) :
    ∀ e, read_column r name start (some stop) = .error e → ¬ IsBoundaryErr e := by
  intro e he
  rw [read_column, get_column_some hcol, ebind_ok] at he
  dsimp only [Option.getD] at he
  rw [validate_range_ok h0 h1 h2, ebind_ok] at he
  by_cases hz : stop - start = 0
  · rw [if_pos hz] at he
    rw [dtype_shape_err he]
    exact fun hcon => hcon
  · rw [if_neg hz] at he
    cases hf : r.file with
    | none =>
      rw [openFile, hf, ebind_err] at he
      injection he with h3
      rw [← h3]
      exact fun hcon => hcon
    | some d =>
      rw [openFile, hf, ebind_ok] at he
      split at he
      · rw [ethrow_bind] at he
        injection he with h3
        rw [← h3]
        exact fun hcon => hcon
      · rw [ebind_pure] at he
        rw [dtype_shape_err he]
        exact fun hcon => hcon

theorem read_columns_nb (r : ReflReader) (start stop : Int) :
    ∀ names, (∀ n ∈ names, ∃ col, r.index.getCol n = some col ∧
        0 ≤ start ∧ start ≤ stop ∧ stop ≤ col.count) →
    ∀ e, read_columns r names start (some stop) = .error e → ¬ IsBoundaryErr e := by
  intro names
  induction names with
  | nil =>
    intro _ e he
    simp only [read_columns] at he
    cases he
  | cons n rest ih =>
    intro hall e he
    simp only [read_columns] at he
    rcases ebind_eq_err.mp he with h1 | ⟨a, ha, h2⟩
    · obtain ⟨col, hcol, hh0, hh1, hh2⟩ := hall n (List.mem_cons_self n rest)
      exact read_col_valid_nb hcol hh0 hh1 hh2 e h1
    · rcases ebind_eq_err.mp h2 with h3 | ⟨m, hm, h4⟩
      · exact ih (fun x hx => hall x (List.mem_cons_of_mem n hx)) e h3
      · cases h4

/-- C4: range validation across `read_column_raw`, `read_column` and
`read_columns` — an unknown column name fails with NotFound carrying the
available names; on a known column a negative bound, or start exceeding stop,
fails with RangeError carrying both bounds; stop exceeding the column's row
count fails with OutOfRange naming the column, the bound and the count; and
on ranges with `0 ≤ start ≤ stop ≤ row_count` over known columns none of
these boundary errors can be produced by any of the three operations. -/
theorem claim_C4_range_validation (r : ReflReader) (name : List Nat) (start stop : Int) :
    (r.index.getCol name = none →
      read_column_raw r name start (some stop)
          = .error (.notFound name r.index.column_names) ∧
      read_column r name start (some stop)
          = .error (.notFound name r.index.column_names) ∧
      ∀ rest, read_columns r (name :: rest) start (some stop)
          = .error (.notFound name r.index.column_names)) ∧
    (∀ col, r.index.getCol name = some col →
      ((start < 0 ∨ stop < 0) →
        read_column_raw r name start (some stop) = .error (.rangeErr start stop) ∧
        read_column r name start (some stop) = .error (.rangeErr start stop) ∧
        ∀ rest, read_columns r (name :: rest) start (some stop)
            = .error (.rangeErr start stop)) ∧
      (0 ≤ start → 0 ≤ stop → start > stop →
        read_column_raw r name start (some stop) = .error (.rangeErr start stop) ∧
        read_column r name start (some stop) = .error (.rangeErr start stop) ∧
        ∀ rest, read_columns r (name :: rest) start (some stop)
            = .error (.rangeErr start stop)) ∧
      (0 ≤ start → start ≤ stop → stop > col.count →
        read_column_raw r name start (some stop)
            = .error (.outOfRange col.name stop col.count) ∧
        read_column r name start (some stop)
            = .error (.outOfRange col.name stop col.count) ∧
        ∀ rest, read_columns r (name :: rest) start (some stop)
            = .error (.outOfRange col.name stop col.count)) ∧
      (0 ≤ start → start ≤ stop → stop ≤ col.count →
        (∀ e, read_column_raw r name start (some stop) = .error e →
          ¬ IsBoundaryErr e) ∧
        (∀ e, read_column r name start (some stop) = .error e →
          ¬ IsBoundaryErr e))) ∧
    (∀ names, (∀ n ∈ names, ∃ col, r.index.getCol n = some col ∧
        0 ≤ start ∧ start ≤ stop ∧ stop ≤ col.count) →
      ∀ e, read_columns r names start (some stop) = .error e →
        ¬ IsBoundaryErr e) := by
  refine ⟨?_, ?_, read_columns_nb r start stop⟩
  · intro hnone
    exact ⟨read_raw_nf hnone start (some stop), read_col_nf hnone start (some stop),
      fun rest => read_columns_head_err rest (read_col_nf hnone start (some stop))⟩
  · intro col hcol
    refine ⟨?_, ?_, ?_, ?_⟩
    · intro hneg
      have hv := @validate_range_neg col start stop hneg
      exact ⟨read_raw_val_err hcol hv, read_col_val_err hcol hv,
        fun rest => read_columns_head_err rest (read_col_val_err hcol hv)⟩
    · intro hh0 hh1 hh2
      have hv := @validate_range_inverted col start stop hh0 hh1 hh2
      exact ⟨read_raw_val_err hcol hv, read_col_val_err hcol hv,
        fun rest => read_columns_head_err rest (read_col_val_err hcol hv)⟩
    · intro hh0 hh1 hh2
      have hv := @validate_range_oor col start stop hh0 hh1 hh2
      exact ⟨read_raw_val_err hcol hv, read_col_val_err hcol hv,
        fun rest => read_columns_head_err rest (read_col_val_err hcol hv)⟩
    · intro hh0 hh1 hh2
      exact ⟨read_raw_valid_nb hcol hh0 hh1 hh2, read_col_valid_nb hcol hh0 hh1 hh2⟩

theorem claim_C4_range_validation_witness :
    read_column_raw ⟨wIdx, some wFile⟩ (s2b "nope") 0 (some 1)
        = .error (.notFound (s2b "nope") wIdx.column_names) ∧
    read_column_raw ⟨wIdx, some wFile⟩ (s2b "flags") (-1) (some 2)
        = .error (.rangeErr (-1) 2) ∧
    read_column ⟨wIdx, some wFile⟩ (s2b "flags") 2 (some 1)
        = .error (.rangeErr 2 1) ∧
    read_columns ⟨wIdx, some wFile⟩ [s2b "flags"] 0 (some 5)
        = .error (.outOfRange (s2b "flags") 5 3) ∧
    ¬ IsBoundaryErr .fileMissing := by
  refine ⟨?_, ?_, ?_, ?_, ?_⟩
  · exact ((claim_C4_range_validation ⟨wIdx, some wFile⟩ (s2b "nope") 0 1).1
      (by decide)).1
  · exact (((claim_C4_range_validation ⟨wIdx, some wFile⟩ (s2b "flags") (-1) 2).2.1
      ⟨s2b "flags", s2b "int", 4, 3, 84, 12⟩ (by decide)).1 (Or.inl (by decide))).1
  · exact (((claim_C4_range_validation ⟨wIdx, some wFile⟩ (s2b "flags") 2 1).2.1
      ⟨s2b "flags", s2b "int", 4, 3, 84, 12⟩ (by decide)).2.1
      (by decide) (by decide) (by decide)).2.1
  · exact ((((claim_C4_range_validation ⟨wIdx, some wFile⟩ (s2b "flags") 0 5).2.1
      ⟨s2b "flags", s2b "int", 4, 3, 84, 12⟩ (by decide)).2.2.1
      (by decide) (by decide) (by decide)).2.2) []
  · refine (claim_C4_range_validation ⟨wIdx, none⟩ (s2b "flags") 0 2).2.2
      [s2b "flags"] ?_ .fileMissing ?_
    · intro n hn
      simp only [List.mem_cons, List.not_mem_nil, or_false] at hn
      rw [hn]
      exact ⟨⟨s2b "flags", s2b "int", 4, 3, 84, 12⟩, by decide, by decide,
        by decide, by decide⟩
    · rfl

end ReflIdx
